import Mathlib

/-!
# The request decoder of `proxy/redis/parser.go`

A shallow embedding of `parseRequest` and `readArgument`, together with the
parts of the Go standard library they call (`bufio.Reader`, `fmt.Sscanf`,
`io.LimitReader` + `ioutil.ReadAll`, `strings.Trim`, `strings.Split`,
`strings.ToLower`), followed by the properties of the decoder.

Conventions.
* A byte is a natural number (below 256 on every real input; no definition
  here depends on the bound) and a byte string (Go `string` or `[]byte`) is a
  `List Nat`.
* Go `int` is 64 bits wide; its values are the integers of `[minInt, maxInt]`.
* The buffered reader is the list of bytes it will still deliver plus the error
  it reports once they are exhausted.
* Go errors built by `fmt.Errorf` are kept structurally: one constructor for
  each of the three error-building functions of the file, carrying the
  arguments the message is formatted from.
-/

namespace Redis

/-! ## Go values -/

/-- Nats of an ASCII literal. -/
def ascii (s : String) : List Nat := s.toList.map Char.toNat

/-- Largest value of a Go `int` (64-bit platforms). -/
def maxInt : Int := 2 ^ 63 - 1

/-- Smallest value of a Go `int` (64-bit platforms). -/
def minInt : Int := -(2 ^ 63)

/-- Two's-complement wrap-around of `int` arithmetic. -/
def wrapInt (x : Int) : Int := (x + 2 ^ 63) % 2 ^ 64 - 2 ^ 63

/-- The runtime constant `maxAlloc` (linux/amd64: 48 address bits). -/
def maxAlloc : Nat := 2 ^ 48

/-- Size in bytes of one `[]byte` slice header, the element type of `Args`. -/
def sliceHeaderSize : Nat := 24

/-- Whether `make([][]byte, len)` panics (`runtime.makeslice`): the length is
negative or the allocation exceeds `maxAlloc`. Running out of memory below that
bound is outside the model. -/
def makeslicePanics (len : Int) : Bool :=
  decide (len < 0) || decide ((maxAlloc : Int) < sliceHeaderSize * len)

/-! ## Errors and results -/

/-- Errors of the underlying stream. -/
inductive IOErr where
  | EOF
  | other (code : Nat)
  deriving DecidableEq, Repr

/-- The errors `parseRequest` can return. -/
inductive Error where
  /-- an error of the stream, returned as it is -/
  | io (e : IOErr)
  /-- built by `malformed(expected, got)` -/
  | malformed (expected : String) (got : List Nat)
  /-- built by `malformedLength(expected, got)` -/
  | malformedLength (expected : Int) (got : Int)
  /-- built by `malformedMissingCRLF()` -/
  | malformedMissingCRLF
  deriving DecidableEq, Repr

/-- The function `malformed`. -/
def malformed (expected : String) (got : List Nat) : Error := Error.malformed expected got

/-- The function `malformedLength`. -/
def malformedLength (expected : Int) (got : Int) : Error := Error.malformedLength expected got

/-- The function `malformedMissingCRLF`. -/
def malformedMissingCRLF : Error := Error.malformedMissingCRLF

/-- The struct `Request`. -/
structure Request where
  Name : List Nat
  Args : List (List Nat)
  deriving DecidableEq, Repr

/-- What a call of `parseRequest` does: return a request, return an error, or
abort with a run-time panic. -/
inductive Outcome where
  | ok (req : Request)
  | error (e : Error)
  | panic
  deriving DecidableEq, Repr

/-! ## `bufio.Reader` -/

/-- A buffered reader over a stream: `buf` are the bytes not yet read, `err` is
what a read reports once `buf` is exhausted. -/
structure Reader where
  buf : List Nat
  err : IOErr
  deriving DecidableEq, Repr

/-- The struct `Conn`, of which the decoder uses the field `r`. -/
structure Conn where
  r : Reader
  deriving DecidableEq, Repr

/-- Split after the first occurrence of `delim`: the bytes through it, and the
bytes after it. -/
def cutAfter (delim : Nat) : List Nat → Option (List Nat × List Nat)
  | [] => none
  | b :: bs =>
    if b = delim then some ([b], bs)
    else
      match cutAfter delim bs with
      | none => none
      | some (l, rest) => some (b :: l, rest)

/-- The method `(*bufio.Reader).ReadString`: the bytes through the first `delim`;
if the stream ends first, everything read and the stream error. -/
def ReadString (r : Reader) (delim : Nat) : List Nat × Option IOErr × Reader :=
  match cutAfter delim r.buf with
  | some (line, rest) => (line, none, ⟨rest, r.err⟩)
  | none => (r.buf, some r.err, ⟨[], r.err⟩)

/-- The method `(*bufio.Reader).ReadByte`. -/
def ReadByte (r : Reader) : Option Nat × Option IOErr × Reader :=
  match r.buf with
  | [] => (none, some r.err, r)
  | b :: bs => (some b, none, ⟨bs, r.err⟩)

/-- The call `ioutil.ReadAll(io.LimitReader(r, n))`: reads until `n` bytes are
read or the stream ends; the end of the stream (`io.EOF`) is not an error for
`ReadAll`, any other stream error is. A limit `n <= 0` reads nothing. -/
def ReadAllLimit (r : Reader) (n : Int) : List Nat × Option IOErr × Reader :=
  if n ≤ 0 then ([], none, r)
  else if n.toNat ≤ r.buf.length then
    (r.buf.take n.toNat, none, ⟨r.buf.drop n.toNat, r.err⟩)
  else
    (r.buf, if r.err = IOErr.EOF then none else some r.err, ⟨[], r.err⟩)

/-! ## `unicode/utf8` -/

/-- The constant `utf8.RuneError`. -/
def RuneError : Nat := 0xFFFD

/-- The table `utf8.first`: information about the first byte of an encoding. -/
def first (b : Nat) : Nat :=
  if b < 0x80 then 0xF0
  else if b < 0xC2 then 0xF1
  else if b < 0xE0 then 0x02
  else if b = 0xE0 then 0x13
  else if b < 0xED then 0x03
  else if b = 0xED then 0x23
  else if b < 0xF0 then 0x03
  else if b = 0xF0 then 0x34
  else if b < 0xF4 then 0x04
  else if b = 0xF4 then 0x44
  else 0xF1

/-- The table `utf8.acceptRanges`: allowed range of the second byte. -/
def acceptRanges (i : Nat) : Nat × Nat :=
  match i with
  | 0 => (0x80, 0xBF)
  | 1 => (0xA0, 0xBF)
  | 2 => (0x80, 0x9F)
  | 3 => (0x90, 0xBF)
  | 4 => (0x80, 0x8F)
  | _ => (0, 0)

/-- The function `utf8.DecodeRune`: the first rune of `p` and its width. -/
def DecodeRune (p : List Nat) : Nat × Nat :=
  match p with
  | [] => (RuneError, 0)
  | c0 :: _ =>
    let p0 := c0
    let x := first p0
    if x ≥ 0xF0 then (if x = 0xF0 then p0 else RuneError, 1)
    else
      let sz := x % 8
      let accept := acceptRanges (x / 16)
      if p.length < sz then (RuneError, 1)
      else
        let b1 := p.getD 1 0
        if b1 < accept.1 ∨ accept.2 < b1 then (RuneError, 1)
        else if sz ≤ 2 then (((p0 &&& 0x1F) <<< 6) ||| (b1 &&& 0x3F), 2)
        else
          let b2 := p.getD 2 0
          if b2 < 0x80 ∨ 0xBF < b2 then (RuneError, 1)
          else if sz ≤ 3 then
            (((p0 &&& 0x0F) <<< 12) ||| ((b1 &&& 0x3F) <<< 6) ||| (b2 &&& 0x3F), 3)
          else
            let b3 := p.getD 3 0
            if b3 < 0x80 ∨ 0xBF < b3 then (RuneError, 1)
            else
              (((p0 &&& 0x07) <<< 18) ||| ((b1 &&& 0x3F) <<< 12) ||| ((b2 &&& 0x3F) <<< 6)
                ||| (b3 &&& 0x3F), 4)

/-- The runes the scanner's `ReadRune` delivers for the bytes `p`, one
`DecodeRune` after the other; `fuel` bounds the number of runes. -/
def readRunesFuel : Nat → List Nat → List Nat
  | 0, _ => []
  | fuel + 1, p =>
    match p with
    | [] => []
    | _ :: _ => (DecodeRune p).1 :: readRunesFuel fuel (p.drop (DecodeRune p).2)

/-- All runes of `p` (every rune takes at least one byte). -/
def readRunes (p : List Nat) : List Nat := readRunesFuel p.length p

/-! ## `fmt.Sscanf` -/

/-- The constant `hugeWid` of `fmt`: the scanner delivers at most this many
runes, then reports the end of the input. -/
def hugeWid : Nat := 2 ^ 30

/-- The table `space` of `fmt`. -/
def space : List (Nat × Nat) :=
  [(0x0009, 0x000d), (0x0020, 0x0020), (0x0085, 0x0085), (0x00a0, 0x00a0),
   (0x1680, 0x1680), (0x2000, 0x200a), (0x2028, 0x2029), (0x202f, 0x202f),
   (0x205f, 0x205f), (0x3000, 0x3000)]

/-- The loop of `isSpace` over the ranges of the table. -/
def inRanges (rx : Nat) : List (Nat × Nat) → Bool
  | [] => false
  | rng :: rest =>
    if rx < rng.1 then false
    else if rx ≤ rng.2 then true
    else inRanges rx rest

/-- The function `isSpace` of `fmt`. -/
def isSpace (r : Nat) : Bool :=
  if r ≥ 2 ^ 16 then false else inRanges r space

/-- Membership in `decimalDigits`. -/
def isDecimalDigit (r : Nat) : Bool := decide (48 ≤ r) && decide (r ≤ 57)

/-- Membership in `sign`. -/
def isSign (r : Nat) : Bool := decide (r = 43) || decide (r = 45)

/-- The method `(*ss).SkipSpace` with `nlIsSpace = false`, on the runes still to
be read: `none` is the error "unexpected newline". -/
def SkipSpace : List Nat → Option (List Nat)
  | [] => some []
  | r :: rs =>
    if r = 13 ∧ rs.head? = some 10 then SkipSpace rs
    else if r = 10 then none
    else if !isSpace r then some (r :: rs)
    else SkipSpace rs

/-- The function `strconv.ParseUint(s, 10, 64)`. -/
def ParseUint (s : List Nat) : Option Nat :=
  if s = [] then none
  else if !s.all isDecimalDigit then none
  else
    let v := s.foldl (fun n c => n * 10 + (c - 48)) 0
    if v < 2 ^ 64 then some v else none

/-- The function `strconv.ParseInt(s, 10, 64)`. -/
def ParseInt (s : List Nat) : Option Int :=
  match s with
  | [] => none
  | c :: t =>
    let neg := decide (c = 45)
    let s1 := if c = 43 ∨ c = 45 then t else s
    match ParseUint s1 with
    | none => none
    | some un =>
      if !neg && decide (2 ^ 63 ≤ un) then none
      else if neg && decide (2 ^ 63 < un) then none
      else some (if neg then -(un : Int) else (un : Int))

/-- The method `(*ss).scanInt` for the verb `d` and 64 bits: skip space, an
optional sign, at least one decimal digit, then `ParseInt` on the token.
Returns the value and the runes left. -/
def scanInt (s : List Nat) : Option (Int × List Nat) :=
  match SkipSpace s with
  | none => none
  | some s1 =>
    match s1 with
    | [] => none
    | c :: t =>
      let sgn := if isSign c then [c] else []
      let s2 := if isSign c then t else s1
      let digits := s2.takeWhile isDecimalDigit
      let s3 := s2.dropWhile isDecimalDigit
      if digits = [] then none
      else
        match ParseInt (sgn ++ digits) with
        | none => none
        | some v => some (v, s3)

/-- The call `fmt.Sscanf(str, "<lit>%d\r", &v)` for a one-byte literal `lit`
(`*` or `$`): `none` when it returns an error, else the value stored in `v`.
The literal must match; `%d` skips leading space; the `\r` of the format is a
space of the format, which matches one or more spaces (not a newline first) or
the end of the input. -/
def Sscanf (lit : Nat) (str : List Nat) : Option Int :=
  match (readRunes str).take hugeWid with
  | [] => none
  | r :: s1 =>
    if r ≠ lit then none
    else
      match SkipSpace s1 with
      | none => none
      | some s2 =>
        match scanInt s2 with
        | none => none
        | some (v, s3) =>
          match s3 with
          | [] => some v
          | c :: _ =>
            if !isSpace c then none
            else if c = 10 then none
            else some v

/-! ## `strings` -/

/-- Membership in the cutset `"\r\n"`. -/
def inCutset (b : Nat) : Bool := decide (b = 13) || decide (b = 10)

/-- The function `strings.TrimLeft(s, "\r\n")`. -/
def TrimLeft (s : List Nat) : List Nat := s.dropWhile inCutset

/-- The function `strings.TrimRight(s, "\r\n")`. -/
def TrimRight (s : List Nat) : List Nat := (s.reverse.dropWhile inCutset).reverse

/-- The call `strings.Trim(s, "\r\n")`: every leading and every trailing byte
that is `\r` or `\n` is removed. -/
def Trim (s : List Nat) : List Nat := TrimRight (TrimLeft s)

/-- The call `strings.Split(s, " ")`, as the loop of `genSplit`: cut at the
first separator, go on with what follows it. -/
def Split : List Nat → List (List Nat)
  | [] => [[]]
  | b :: bs =>
    if b = 32 then [] :: Split bs
    else
      match Split bs with
      | [] => [[b]]
      | t :: ts => (b :: t) :: ts

/-- One byte of the ASCII branch of `strings.ToLower`. -/
def lowerByte (c : Nat) : Nat := if 65 ≤ c ∧ c ≤ 90 then c + 32 else c

/-- The function `strings.ToLower`. A string of ASCII bytes is lowered byte by
byte; a string with a byte `>= utf8.RuneSelf` goes through
`Map(unicode.ToLower, s)`, which depends on the Unicode tables and is the
parameter `ul`. -/
def ToLower (ul : List Nat → List Nat) (s : List Nat) : List Nat :=
  if s.all (fun c => decide (c < 128)) then
    (if s.any (fun c => decide (65 ≤ c ∧ c ≤ 90)) then s.map lowerByte else s)
  else ul s

/-! ## The decoder -/

/-- The function `readArgument`. -/
def readArgument (r : Reader) : Except Error (List Nat) × Reader :=
  match ReadString r 10 with
  | (line, some _, r1) => (.error (malformed "$<argumentLength>" line), r1)
  | (line, none, r1) =>
    match Sscanf 36 line with
    | none => (.error (malformed "$<argumentSize>" line), r1)
    | some argSize =>
      match ReadAllLimit r1 argSize with
      | (_, some e, r2) => (.error (Error.io e), r2)
      | (data, none, r2) =>
        if (data.length : Int) ≠ argSize then
          (.error (malformedLength argSize data.length), r2)
        else
          match ReadByte r2 with
          | (_, some _, r3) => (.error malformedMissingCRLF, r3)
          | (none, none, r3) => (.error malformedMissingCRLF, r3)
          | (some b, none, r3) =>
            if b ≠ 13 then (.error malformedMissingCRLF, r3)
            else
              match ReadByte r3 with
              | (_, some _, r4) => (.error malformedMissingCRLF, r4)
              | (none, none, r4) => (.error malformedMissingCRLF, r4)
              | (some b, none, r4) =>
                if b ≠ 10 then (.error malformedMissingCRLF, r4)
                else (.ok data, r4)

/-- The loop `for i := 0; i < argsCount-1; i += 1` of `parseRequest`: `n` calls
of `readArgument`, stopping at the first error. -/
def readArgs : Nat → Reader → Except Error (List (List Nat)) × Reader
  | 0, r => (.ok [], r)
  | n + 1, r =>
    match readArgument r with
    | (.error e, r1) => (.error e, r1)
    | (.ok a, r1) =>
      match readArgs n r1 with
      | (.error e, r2) => (.error e, r2)
      | (.ok rest, r2) => (.ok (a :: rest), r2)

/-- The function `parseRequest`: the outcome, and the reader afterwards. -/
def parseRequest (ul : List Nat → List Nat) (c : Conn) : Outcome × Reader :=
  match ReadString c.r 10 with
  | (_, some err, r1) => (.error (Error.io err), r1)
  | (line, none, r1) =>
    if line.head? = some 42 then
      match Sscanf 42 line with
      | none => (.error (malformed "*<numberOfArguments>" line), r1)
      | some argsCount =>
        match readArgument r1 with
        | (.error err, r2) => (.error err, r2)
        | (.ok firstArg, r2) =>
          if makeslicePanics (wrapInt (argsCount - 1)) then (.panic, r2)
          else
            match readArgs (wrapInt (argsCount - 1)).toNat r2 with
            | (.error err, r3) => (.error err, r3)
            | (.ok args, r3) => (.ok ⟨ToLower ul firstArg, args⟩, r3)
    else
      let fields := Split (Trim line)
      (.ok ⟨ToLower ul (fields.headD []), fields.tail⟩, r1)

/-! ## The wire format, as the specification words it -/

/-- The ASCII digit of `d < 10`. -/
def digitByte (d : Nat) : Nat := 48 + d

/-- Decimal digits of `n`, most significant first; `fuel` bounds their number. -/
def itoaFuel : Nat → Nat → List Nat
  | 0, _ => []
  | fuel + 1, n =>
    if n < 10 then [digitByte n] else itoaFuel fuel (n / 10) ++ [digitByte (n % 10)]

/-- The base-10 rendering `<n>` of a length or count. -/
def itoa (n : Nat) : List Nat := itoaFuel (n + 1) n

/-- The line terminator `\r\n`. -/
def CRLF : List Nat := [13, 10]

/-- The header `$<n>\r\n` of an argument of `n` bytes. -/
def argHeader (n : Nat) : List Nat := 36 :: itoa n ++ CRLF

/-- One length-prefixed argument: `$<len>\r\n<bytes>\r\n`. -/
def bulk (p : List Nat) : List Nat := argHeader p.length ++ p ++ CRLF

/-- The header `*<k>\r\n` of a frame of `k` arguments. -/
def countHeader (k : Nat) : List Nat := 42 :: itoa k ++ CRLF

/-- The canonical multibulk frame of the byte strings `ps`: `*<k>\r\n` followed by
each of them as a length-prefixed argument. -/
def frame (ps : List (List Nat)) : List Nat :=
  countHeader ps.length ++ (ps.map bulk).flatten

/-- Encoding of a request: the name is the first argument of the frame. -/
def encode (req : Request) : List Nat := frame (req.Name :: req.Args)

/-- The byte strings a Go program can hold: the length is an `int`. -/
def fitsInt (n : Nat) : Prop := (n : Int) ≤ maxInt

instance (n : Nat) : Decidable (fitsInt n) := by unfold fitsInt; infer_instance

/-- A canonical multibulk frame: at least the command name, every payload a Go
byte string, and an argument slice that `make` can allocate. -/
def CanonicalFrame (f : List Nat) : Prop :=
  ∃ ps : List (List Nat), 1 ≤ ps.length ∧ (∀ p ∈ ps, fitsInt p.length) ∧
    sliceHeaderSize * (ps.length - 1) ≤ maxAlloc ∧ f = frame ps

/-- An inline line: it ends at its only `\n` and does not begin with `*`. -/
def InlineLine (f : List Nat) : Prop :=
  ∃ l : List Nat, f = l ++ [10] ∧ (∀ b ∈ l, b ≠ 10) ∧ f.head? ≠ some 42

/-- Tokens written one after the other with a single space between two of them. -/
def joinTokens : List (List Nat) → List Nat
  | [] => []
  | [t] => t
  | t :: ts => t ++ 32 :: joinTokens ts

/-- The header lines `fmt.Sscanf` accepts for the format `<lit>%d\r`, on the
characters `rs` it reads: the literal, white space other than a newline (none
allowed), an optional sign, at least one decimal digit, then a white-space
character other than a newline, or the end of what is read. -/
def LenientHeader (lit : Nat) (rs : List Nat) : Prop :=
  ∃ ws sg ds tl : List Nat, rs = lit :: (ws ++ sg ++ ds ++ tl) ∧
    (∀ r ∈ ws, isSpace r = true ∧ r ≠ 10) ∧
    (sg = [] ∨ sg = [43] ∨ sg = [45]) ∧
    ds ≠ [] ∧ (∀ d ∈ ds, 48 ≤ d ∧ d ≤ 57) ∧
    (tl = [] ∨ ∃ c t, tl = c :: t ∧ isSpace c = true ∧ c ≠ 10)

/-- Successive calls of `readArgument` that all succeed: started on the reader
`r` they return the payloads `done`, in order, and leave the reader `r'`. -/
inductive ReadsOk : Reader → List (List Nat) → Reader → Prop where
  | nil (r : Reader) : ReadsOk r [] r
  | cons (r r1 r' : Reader) (a : List Nat) (rest : List (List Nat)) :
      readArgument r = (.ok a, r1) → ReadsOk r1 rest r' → ReadsOk r (a :: rest) r'

/-- Whether `make([][]byte, len)` ends the run when the runtime can obtain at
most `avail` bytes for the slice: the panic of `makeslicePanics`, or the fatal
"out of memory" of the allocator, when the `len` slice headers need more than
`avail` bytes. A slice of length 0 needs no memory. -/
def makeAborts (avail : Nat) (len : Int) : Bool :=
  makeslicePanics len || decide ((avail : Int) < sliceHeaderSize * len)

/-- The function `parseRequest`, run where `make` can obtain at most `avail`
bytes: the same steps, with the end of the run in `make`, by its panic or by
the fatal error of the allocator, as the outcome `Outcome.panic`. With `avail`
at least `maxAlloc`, memory never runs out and this is `parseRequest`. -/
def parseRequestWithin (avail : Nat) (ul : List Nat → List Nat) (c : Conn) : Outcome × Reader :=
  match ReadString c.r 10 with
  | (_, some err, r1) => (.error (Error.io err), r1)
  | (line, none, r1) =>
    if line.head? = some 42 then
      match Sscanf 42 line with
      | none => (.error (malformed "*<numberOfArguments>" line), r1)
      | some argsCount =>
        match readArgument r1 with
        | (.error err, r2) => (.error err, r2)
        | (.ok firstArg, r2) =>
          if makeAborts avail (wrapInt (argsCount - 1)) then (.panic, r2)
          else
            match readArgs (wrapInt (argsCount - 1)).toNat r2 with
            | (.error err, r3) => (.error err, r3)
            | (.ok args, r3) => (.ok ⟨ToLower ul firstArg, args⟩, r3)
    else
      let fields := Split (Trim line)
      (.ok ⟨ToLower ul (fields.headD []), fields.tail⟩, r1)

/-- The inputs on which `parseRequest` reaches `make([][]byte, argsCount-1)` with
a length that `make` does not provide: the first line is a count header that
`Sscanf` accepts, the bytes after it form one well-formed argument, and the
count is not positive, or asks for more bytes of slice headers than `maxAlloc`,
or for more than the `avail` bytes the runtime can obtain. -/
def AbortsInMake (avail : Nat) (c : Conn) : Prop :=
  ∃ (line : List Nat) (r1 : Reader) (argsCount : Int) (firstArg : List Nat) (r2 : Reader),
    ReadString c.r 10 = (line, none, r1) ∧ line.head? = some 42 ∧
    Sscanf 42 line = some argsCount ∧ readArgument r1 = (.ok firstArg, r2) ∧
    (argsCount ≤ 0 ∨ (maxAlloc : Int) < sliceHeaderSize * (argsCount - 1) ∨
      (avail : Int) < sliceHeaderSize * (argsCount - 1))

/-! # Lemmas

## Decimal rendering -/

theorem itoaFuel_digits (f n : Nat) : ∀ b ∈ itoaFuel f n, 48 ≤ b ∧ b ≤ 57 := by
  induction f generalizing n with
  | zero => intro b hb; simp [itoaFuel] at hb
  | succ f ih =>
    intro b hb
    by_cases h10 : n < 10
    · simp only [itoaFuel, h10, if_true, digitByte, List.mem_singleton] at hb
      omega
    · simp only [itoaFuel, h10, if_false, List.mem_append, List.mem_singleton, digitByte] at hb
      rcases hb with h | h
      · exact ih _ b h
      · omega

theorem itoaFuel_ne_nil (f n : Nat) : itoaFuel (f + 1) n ≠ [] := by
  unfold itoaFuel
  split <;> simp

theorem itoaFuel_value (f n : Nat) (h : n < 10 ^ (f + 1)) :
    (itoaFuel (f + 1) n).foldl (fun a c => a * 10 + (c - 48)) 0 = n := by
  induction f generalizing n with
  | zero =>
    have h10 : n < 10 := by simpa using h
    simp [itoaFuel, h10, digitByte]
  | succ f ih =>
    unfold itoaFuel
    split
    · simp [digitByte]
    · have hlt : n / 10 < 10 ^ (f + 1) := by
        rw [Nat.div_lt_iff_lt_mul (by norm_num)]
        calc n < 10 ^ (f + 1 + 1) := h
          _ = 10 ^ (f + 1) * 10 := by ring
      rw [List.foldl_append, ih _ hlt]
      simp [digitByte]
      omega

theorem itoaFuel_length (g f n : Nat) (h : n < 10 ^ (f + 1)) :
    (itoaFuel g n).length ≤ f + 1 := by
  induction g generalizing f n with
  | zero => simp [itoaFuel]
  | succ g ih =>
    unfold itoaFuel
    split
    · simp
    · rename_i h10
      cases f with
      | zero => simp at h; omega
      | succ f =>
        have hlt : n / 10 < 10 ^ (f + 1) := by
          rw [Nat.div_lt_iff_lt_mul (by norm_num)]
          calc n < 10 ^ (f + 1 + 1) := h
            _ = 10 ^ (f + 1) * 10 := by ring
        have := ih f (n / 10) hlt
        simp
        omega

theorem itoa_digits (n : Nat) : ∀ b ∈ itoa n, 48 ≤ b ∧ b ≤ 57 := itoaFuel_digits _ n

theorem itoa_ne_nil (n : Nat) : itoa n ≠ [] := itoaFuel_ne_nil n n

theorem itoa_value (n : Nat) : (itoa n).foldl (fun a c => a * 10 + (c - 48)) 0 = n :=
  itoaFuel_value n n (Nat.lt_of_lt_of_le (Nat.lt_pow_self (by norm_num) n)
    (Nat.pow_le_pow_right (by norm_num) (Nat.le_succ n)))

theorem itoa_length (n : Nat) (h : n < 2 ^ 63) : (itoa n).length ≤ 19 :=
  itoaFuel_length _ 18 n (Nat.lt_of_lt_of_le h (by norm_num))

/-! ## Runes of ASCII bytes -/

theorem DecodeRune_ascii (b : Nat) (t : List Nat) (h : b < 128) : DecodeRune (b :: t) = (b, 1) := by
  simp [DecodeRune, first, h]

theorem readRunesFuel_ascii (p : List Nat) (h : ∀ b ∈ p, b < 128) (f : Nat) (hf : p.length ≤ f) :
    readRunesFuel f p = p := by
  induction p generalizing f with
  | nil => cases f <;> simp [readRunesFuel]
  | cons b t ih =>
    cases f with
    | zero => simp at hf
    | succ f =>
      have hb : b < 128 := h b (List.mem_cons_self _ _)
      simp only [readRunesFuel, DecodeRune_ascii b t hb, List.drop_succ_cons, List.drop_zero]
      rw [ih (fun x hx => h x (List.mem_cons_of_mem _ hx)) f (by simpa using hf)]

theorem readRunes_ascii (p : List Nat) (h : ∀ b ∈ p, b < 128) : readRunes p = p :=
  readRunesFuel_ascii p h p.length (Nat.le_refl _)

/-! ## Scanning a canonical header -/

theorem isSpace_digit (d : Nat) (h : 48 ≤ d ∧ d ≤ 57) : isSpace d = false := by
  obtain ⟨h1, h2⟩ := h
  interval_cases d <;> rfl

theorem isDecimalDigit_iff (d : Nat) : isDecimalDigit d = true ↔ 48 ≤ d ∧ d ≤ 57 := by
  simp [isDecimalDigit]

theorem isSign_digit (d : Nat) (h : 48 ≤ d ∧ d ≤ 57) : isSign d = false := by
  simp [isSign]; omega

theorem SkipSpace_digit (d : Nat) (rs : List Nat) (h : 48 ≤ d ∧ d ≤ 57) :
    SkipSpace (d :: rs) = some (d :: rs) := by
  have h13 : d ≠ 13 := by omega
  have h10 : d ≠ 10 := by omega
  simp [SkipSpace, h13, h10, isSpace_digit d h]

theorem ParseInt_digits (ds : List Nat) (n : Nat) (hne : ds ≠ [])
    (hd : ∀ b ∈ ds, 48 ≤ b ∧ b ≤ 57)
    (hv : ds.foldl (fun a c => a * 10 + (c - 48)) 0 = n) (hn : n < 2 ^ 63) :
    ParseInt ds = some (n : Int) := by
  cases ds with
  | nil => exact absurd rfl hne
  | cons c t =>
    have hc := hd c (List.mem_cons_self _ _)
    have h43 : c ≠ 43 := by omega
    have h45 : c ≠ 45 := by omega
    have hall : (c :: t).all isDecimalDigit = true := by
      rw [List.all_eq_true]
      intro x hx
      exact (isDecimalDigit_iff x).mpr (hd x hx)
    have hlt : n < 2 ^ 64 := by omega
    have hnot : ¬ (2 ^ 63 ≤ n) := by omega
    simp only [ParseInt, ParseUint, h43, h45, or_self, if_false, hall, hv, hlt, if_true,
      decide_False, Bool.not_true, Bool.false_and, Bool.not_false, Bool.true_and, hnot,
      decide_eq_true_eq, reduceCtorEq, Bool.false_eq_true]

/-- Scanning the header `<lit><n>\r\n`, `n` rendered in base 10, stores `n`. -/
theorem Sscanf_header (lit n : Nat) (hl : lit < 128) (hn : n < 2 ^ 63) :
    Sscanf lit (lit :: itoa n ++ CRLF) = some (n : Int) := by
  have hd := itoa_digits n
  have hascii : ∀ b ∈ lit :: itoa n ++ CRLF, b < 128 := by
    intro b hb
    simp only [CRLF, List.cons_append, List.mem_cons, List.mem_append, List.mem_singleton,
      List.not_mem_nil, or_false] at hb
    rcases hb with h | h | h | h
    · omega
    · have := hd b h; omega
    · omega
    · omega
  have hlen : (lit :: itoa n ++ CRLF).length ≤ hugeWid := by
    have := itoa_length n hn
    simp [CRLF, hugeWid]
    omega
  obtain ⟨d, t, hdt⟩ := List.exists_cons_of_ne_nil (itoa_ne_nil n)
  have hdd : 48 ≤ d ∧ d ≤ 57 := hd d (by rw [hdt]; exact List.mem_cons_self _ _)
  have htake : (itoa n ++ CRLF).takeWhile isDecimalDigit = itoa n := by
    rw [List.takeWhile_append_of_pos (fun a ha => (isDecimalDigit_iff a).mpr (hd a ha))]
    simp [CRLF, isDecimalDigit]
  have hdrop : (itoa n ++ CRLF).dropWhile isDecimalDigit = CRLF := by
    rw [List.dropWhile_append_of_pos (fun a ha => (isDecimalDigit_iff a).mpr (hd a ha))]
    simp [CRLF, isDecimalDigit]
  have hparse := ParseInt_digits (itoa n) n (itoa_ne_nil n) hd (itoa_value n) hn
  have hscan : scanInt (itoa n ++ CRLF) = some ((n : Int), CRLF) := by
    have hskip : SkipSpace (itoa n ++ CRLF) = some (itoa n ++ CRLF) := by
      rw [hdt]; exact SkipSpace_digit d _ hdd
    unfold scanInt
    rw [hskip]
    have hcons : itoa n ++ CRLF = d :: (t ++ CRLF) := by rw [hdt]; rfl
    rw [hcons]
    simp only [isSign_digit d hdd, Bool.false_eq_true, if_false, List.nil_append]
    rw [← hcons, htake, hdrop, hparse]
    simp [itoa_ne_nil n]
  unfold Sscanf
  rw [readRunes_ascii _ hascii, List.take_of_length_le hlen]
  have hskip : SkipSpace (itoa n ++ CRLF) = some (itoa n ++ CRLF) := by
    rw [hdt]; exact SkipSpace_digit d _ hdd
  simp only [List.cons_append, ne_eq, not_true_eq_false, if_false, hskip, hscan]
  simp [CRLF, isSpace, inRanges, space]

/-! ## Reading from the stream -/

theorem cutAfter_append (delim : Nat) (pre rest : List Nat) (h : ∀ b ∈ pre, b ≠ delim) :
    cutAfter delim (pre ++ delim :: rest) = some (pre ++ [delim], rest) := by
  induction pre with
  | nil => simp [cutAfter]
  | cons b t ih =>
    have hb : b ≠ delim := h b (List.mem_cons_self _ _)
    simp [cutAfter, hb, ih (fun x hx => h x (List.mem_cons_of_mem _ hx))]

theorem cutAfter_none (delim : Nat) (l : List Nat) (h : ∀ b ∈ l, b ≠ delim) :
    cutAfter delim l = none := by
  induction l with
  | nil => rfl
  | cons b t ih =>
    have hb : b ≠ delim := h b (List.mem_cons_self _ _)
    simp [cutAfter, hb, ih (fun x hx => h x (List.mem_cons_of_mem _ hx))]

theorem ReadString_line (pre rest : List Nat) (e : IOErr) (h : ∀ b ∈ pre, b ≠ 10) :
    ReadString ⟨pre ++ 10 :: rest, e⟩ 10 = (pre ++ [10], none, ⟨rest, e⟩) := by
  simp [ReadString, cutAfter_append 10 pre rest h]

theorem ReadAllLimit_exact (p rest : List Nat) (e : IOErr) :
    ReadAllLimit ⟨p ++ rest, e⟩ (p.length : Int) = (p, none, ⟨rest, e⟩) := by
  unfold ReadAllLimit
  cases p with
  | nil => simp
  | cons b t =>
    have h1 : ¬ (((b :: t).length : Int) ≤ 0) := by simp
    simp only [h1, if_false, Int.toNat_ofNat]
    simp

/-- The header line `<lit><n>\r\n` is what `ReadString` returns first. -/
theorem ReadString_header (lit n : Nat) (hl : lit ≠ 10) (rest : List Nat) (e : IOErr) :
    ReadString ⟨lit :: itoa n ++ CRLF ++ rest, e⟩ 10 = (lit :: itoa n ++ CRLF, none, ⟨rest, e⟩) := by
  have h : ∀ b ∈ lit :: itoa n ++ [13], b ≠ 10 := by
    intro b hb
    simp only [List.cons_append, List.mem_cons, List.mem_append, List.mem_singleton,
      List.not_mem_nil, or_false] at hb
    rcases hb with h | h | h
    · omega
    · have := itoa_digits n b h; omega
    · omega
  have := ReadString_line (lit :: itoa n ++ [13]) rest e h
  simpa [CRLF] using this

/-! ## Reading arguments -/

theorem fitsInt_iff (n : Nat) : fitsInt n ↔ n < 2 ^ 63 := by
  unfold fitsInt maxInt
  omega

theorem wrapInt_of_range (x : Int) (h0 : -(2 ^ 63) ≤ x) (h1 : x < 2 ^ 63) : wrapInt x = x := by
  unfold wrapInt
  omega

/-- Reading one canonical argument returns its payload and leaves what follows. -/
theorem readArgument_bulk (p s : List Nat) (e : IOErr) (hp : p.length < 2 ^ 63) :
    readArgument ⟨bulk p ++ s, e⟩ = (.ok p, ⟨s, e⟩) := by
  have hshape : bulk p ++ s = 36 :: itoa p.length ++ CRLF ++ (p ++ (13 :: 10 :: s)) := by
    simp [bulk, argHeader, CRLF]
  unfold readArgument
  rw [hshape, ReadString_header 36 p.length (by decide) _ e]
  simp only [Sscanf_header 36 p.length (by decide) hp, ReadAllLimit_exact]
  simp [ReadByte]

theorem readArgs_bulks (ps : List (List Nat)) (s : List Nat) (e : IOErr)
    (h : ∀ p ∈ ps, p.length < 2 ^ 63) :
    readArgs ps.length ⟨(ps.map bulk).flatten ++ s, e⟩ = (.ok ps, ⟨s, e⟩) := by
  induction ps with
  | nil => simp [readArgs]
  | cons p t ih =>
    have hp := h p (List.mem_cons_self _ _)
    have ht := ih (fun x hx => h x (List.mem_cons_of_mem _ hx))
    simp only [List.map_cons, List.flatten_cons, List.length_cons, List.append_assoc, readArgs,
      readArgument_bulk p _ e hp, ht]

/-- Decoding a canonical frame followed by the bytes `s`. -/
theorem parseRequest_frame (ul : List Nat → List Nat) (p1 : List Nat) (ps : List (List Nat))
    (s : List Nat) (e : IOErr) (h : ∀ p ∈ p1 :: ps, p.length < 2 ^ 63)
    (hk : sliceHeaderSize * ps.length ≤ maxAlloc) :
    parseRequest ul ⟨⟨frame (p1 :: ps) ++ s, e⟩⟩ = (.ok ⟨ToLower ul p1, ps⟩, ⟨s, e⟩) := by
  have hshape : frame (p1 :: ps) ++ s =
      42 :: itoa (ps.length + 1) ++ CRLF ++ (bulk p1 ++ ((ps.map bulk).flatten ++ s)) := by
    simp [frame, countHeader]
  have hk' : 24 * ps.length ≤ 2 ^ 48 := by
    simpa only [sliceHeaderSize, maxAlloc] using hk
  have hcount : ps.length + 1 < 2 ^ 63 := by omega
  have hhead : (42 :: itoa (ps.length + 1) ++ CRLF).head? = some 42 := rfl
  have hwrap : wrapInt (((ps.length + 1 : Nat) : Int) - 1) = (ps.length : Int) := by
    have : (((ps.length + 1 : Nat) : Int) - 1) = (ps.length : Int) := by push_cast; ring
    rw [this]
    exact wrapInt_of_range _ (by omega) (by omega)
  have hmake : makeslicePanics (ps.length : Int) = false := by
    simp only [makeslicePanics, sliceHeaderSize, maxAlloc, Bool.or_eq_false_iff,
      decide_eq_false_iff_not]
    constructor
    · omega
    · have : (24 : Int) * (ps.length : Int) ≤ 2 ^ 48 := by exact_mod_cast hk'
      push_cast
      omega
  unfold parseRequest
  rw [hshape]
  simp only [ReadString_header 42 (ps.length + 1) (by decide) _ e, hhead, if_true,
    Sscanf_header 42 (ps.length + 1) (by decide) hcount,
    readArgument_bulk p1 _ e (h p1 (List.mem_cons_self _ _)), hwrap, hmake,
    Bool.false_eq_true, if_false, Int.toNat_ofNat,
    readArgs_bulks ps s e (fun x hx => h x (List.mem_cons_of_mem _ hx))]

/-! ## Inline lines -/

theorem Split_ne_nil (s : List Nat) : Split s ≠ [] := by
  cases s with
  | nil => simp [Split]
  | cons b t =>
    unfold Split
    split
    · simp
    · split <;> simp

theorem Split_token (t : List Nat) (h : ∀ b ∈ t, b ≠ 32) : Split t = [t] := by
  induction t with
  | nil => rfl
  | cons b t ih =>
    have hb : b ≠ 32 := h b (List.mem_cons_self _ _)
    simp [Split, hb, ih (fun x hx => h x (List.mem_cons_of_mem _ hx))]

theorem Split_token_space (t rest : List Nat) (h : ∀ b ∈ t, b ≠ 32) :
    Split (t ++ 32 :: rest) = t :: Split rest := by
  induction t with
  | nil => simp [Split]
  | cons b t ih =>
    have hb : b ≠ 32 := h b (List.mem_cons_self _ _)
    simp [Split, hb, ih (fun x hx => h x (List.mem_cons_of_mem _ hx))]

/-- Splitting what `joinTokens` wrote gives the tokens back. -/
theorem Split_joinTokens (toks : List (List Nat)) (hne : toks ≠ [])
    (h : ∀ t ∈ toks, ∀ b ∈ t, b ≠ 32) : Split (joinTokens toks) = toks := by
  induction toks with
  | nil => exact absurd rfl hne
  | cons t ts ih =>
    cases ts with
    | nil => simpa [joinTokens] using Split_token t (h t (List.mem_cons_self _ _))
    | cons t2 ts =>
      have ih' := ih (by simp) (fun x hx => h x (List.mem_cons_of_mem _ hx))
      simp only [joinTokens] at ih' ⊢
      rw [Split_token_space t _ (h t (List.mem_cons_self _ _)), ih']

theorem dropWhile_cutset_append (pre rest : List Nat) (h : ∀ b ∈ pre, b = 13) :
    (pre ++ rest).dropWhile inCutset = rest.dropWhile inCutset := by
  induction pre with
  | nil => rfl
  | cons b t ih =>
    have hb : b = 13 := h b (List.mem_cons_self _ _)
    subst hb
    simp only [List.cons_append]
    rw [List.dropWhile_cons_of_pos (by decide)]
    exact ih (fun x hx => h x (List.mem_cons_of_mem _ hx))

theorem dropWhile_cutset_stop (l : List Nat) (h : l.head? ≠ some 13 ∧ l.head? ≠ some 10) :
    l.dropWhile inCutset = l := by
  cases l with
  | nil => rfl
  | cons b t =>
    have h13 : b ≠ 13 := by intro hb; exact h.1 (by simp [hb])
    have h10 : b ≠ 10 := by intro hb; exact h.2 (by simp [hb])
    rw [List.dropWhile_cons_of_neg (by simp [inCutset, h13, h10])]

/-- What `strings.Trim(line, "\r\n")` leaves of a line: the text between the
leading `\r` bytes and the trailing `\r` bytes that precede the final `\n`. -/
theorem Trim_line (pre text suf : List Nat) (hpre : ∀ b ∈ pre, b = 13) (hsuf : ∀ b ∈ suf, b = 13)
    (hhead : text.head? ≠ some 13 ∧ text.head? ≠ some 10)
    (hlast : text.getLast? ≠ some 13 ∧ text.getLast? ≠ some 10) :
    Trim (pre ++ text ++ suf ++ [10]) = text := by
  have hsuf' : ∀ b ∈ (suf ++ [10]).reverse, inCutset b = true := by
    intro b hb
    simp only [List.reverse_append, List.reverse_cons, List.reverse_nil, List.nil_append,
      List.singleton_append, List.mem_cons, List.mem_reverse] at hb
    rcases hb with h | h
    · simp [inCutset, h]
    · simp [inCutset, hsuf b h]
  have hrev : ((suf ++ [10]).reverse ++ text.reverse).dropWhile inCutset = text.reverse := by
    rw [List.dropWhile_append_of_pos hsuf']
    apply dropWhile_cutset_stop
    rw [List.head?_reverse]
    exact hlast
  cases text with
  | nil =>
    have hall : ∀ b ∈ pre ++ [] ++ suf ++ [10], inCutset b = true := by
      intro b hb
      simp only [List.mem_append, List.mem_singleton, List.append_nil] at hb
      rcases hb with (h | h) | h
      · simp [inCutset, hpre b h]
      · simp [inCutset, hsuf b h]
      · simp [inCutset, h]
    have hnil : (pre ++ [] ++ suf ++ [10]).dropWhile inCutset = [] := by
      rw [List.dropWhile_eq_nil_iff]; exact hall
    unfold Trim TrimLeft TrimRight
    rw [hnil]
    rfl
  | cons c t =>
    have hleft : TrimLeft (pre ++ (c :: t) ++ suf ++ [10]) = (c :: t) ++ (suf ++ [10]) := by
      unfold TrimLeft
      rw [List.append_assoc, List.append_assoc, dropWhile_cutset_append pre _ hpre]
      rw [← List.append_assoc]
      exact dropWhile_cutset_stop _ (by simpa using hhead)
    unfold Trim TrimRight
    rw [hleft, List.reverse_append, hrev, List.reverse_reverse]

theorem joinTokens_mem (toks : List (List Nat)) (b : Nat) (hb : b ∈ joinTokens toks) :
    b = 32 ∨ ∃ t ∈ toks, b ∈ t := by
  induction toks with
  | nil => simp [joinTokens] at hb
  | cons t ts ih =>
    cases ts with
    | nil => exact Or.inr ⟨t, by simp, by simpa [joinTokens] using hb⟩
    | cons t2 ts =>
      simp only [joinTokens, List.mem_append, List.mem_cons] at hb
      rcases hb with h | h | h
      · exact Or.inr ⟨t, by simp, h⟩
      · exact Or.inl h
      · rcases ih h with h' | ⟨x, hx, hbx⟩
        · exact Or.inl h'
        · exact Or.inr ⟨x, List.mem_cons_of_mem _ hx, hbx⟩

/-! ## What `Sscanf` accepts -/

theorem SkipSpace_some (s s' : List Nat) (h : SkipSpace s = some s') :
    ∃ ws : List Nat, s = ws ++ s' ∧ ∀ r ∈ ws, isSpace r = true ∧ r ≠ 10 := by
  induction s with
  | nil =>
    simp only [SkipSpace, Option.some.injEq] at h
    exact ⟨[], by simp [h], by simp⟩
  | cons r rs ih =>
    unfold SkipSpace at h
    by_cases hcr : r = 13 ∧ rs.head? = some 10
    · rw [if_pos hcr] at h
      obtain ⟨ws, hws, hsp⟩ := ih h
      refine ⟨r :: ws, by simp [hws], ?_⟩
      intro x hx
      rcases List.mem_cons.mp hx with hx | hx
      · subst hx; rw [hcr.1]; exact ⟨by decide, by decide⟩
      · exact hsp x hx
    · rw [if_neg hcr] at h
      by_cases h10 : r = 10
      · rw [if_pos h10] at h; cases h
      · rw [if_neg h10] at h
        by_cases hsp : isSpace r = true
        · simp only [hsp, Bool.not_true, Bool.false_eq_true, if_false] at h
          obtain ⟨ws, hws, hall⟩ := ih h
          refine ⟨r :: ws, by simp [hws], ?_⟩
          intro x hx
          rcases List.mem_cons.mp hx with hx | hx
          · subst hx; exact ⟨hsp, h10⟩
          · exact hall x hx
        · simp only [hsp, Bool.not_false, if_true, Option.some.injEq] at h
          exact ⟨[], by simp [h], by simp⟩

theorem scanInt_some (s s3 : List Nat) (v : Int) (h : scanInt s = some (v, s3)) :
    ∃ ws sg ds : List Nat, s = ws ++ sg ++ ds ++ s3 ∧
      (∀ r ∈ ws, isSpace r = true ∧ r ≠ 10) ∧ (sg = [] ∨ sg = [43] ∨ sg = [45]) ∧
      ds ≠ [] ∧ (∀ d ∈ ds, 48 ≤ d ∧ d ≤ 57) := by
  unfold scanInt at h
  cases hsk : SkipSpace s with
  | none => rw [hsk] at h; cases h
  | some s1 =>
    rw [hsk] at h
    obtain ⟨ws, hws, hsp⟩ := SkipSpace_some s s1 hsk
    cases s1 with
    | nil => cases h
    | cons c t =>
      simp only at h
      by_cases hd : (if isSign c = true then t else c :: t).takeWhile isDecimalDigit = []
      · rw [if_pos hd] at h; cases h
      · rw [if_neg hd] at h
        cases hp : ParseInt ((if isSign c = true then [c] else []) ++
            (if isSign c = true then t else c :: t).takeWhile isDecimalDigit) with
        | none => rw [hp] at h; cases h
        | some w =>
          rw [hp] at h
          simp only [Option.some.injEq, Prod.mk.injEq] at h
          refine ⟨ws, if isSign c = true then [c] else [],
            (if isSign c = true then t else c :: t).takeWhile isDecimalDigit, ?_, hsp, ?_, hd, ?_⟩
          · rw [hws, ← h.2, List.append_assoc ws, List.append_assoc ws,
              List.append_assoc _ (List.takeWhile _ _), List.takeWhile_append_dropWhile]
            by_cases hs : isSign c = true <;> simp [hs]
          · by_cases hs : isSign c = true
            · simp only [hs, if_true]
              simp only [isSign, Bool.or_eq_true, decide_eq_true_eq] at hs
              rcases hs with hs | hs <;> simp [hs]
            · simp [hs]
          · intro d hd'
            exact (isDecimalDigit_iff d).mp (List.mem_takeWhile_imp hd')

/-- A line on which `Sscanf` succeeds has the shape `LenientHeader`. -/
theorem Sscanf_some (lit : Nat) (str : List Nat) (v : Int) (h : Sscanf lit str = some v) :
    LenientHeader lit ((readRunes str).take hugeWid) := by
  unfold Sscanf at h
  cases hr : (readRunes str).take hugeWid with
  | nil => rw [hr] at h; cases h
  | cons r s1 =>
    rw [hr] at h
    simp only at h
    by_cases hlit : r = lit
    · simp only [hlit, ne_eq, not_true_eq_false, if_false] at h
      cases hsk : SkipSpace s1 with
      | none => rw [hsk] at h; cases h
      | some s2 =>
        rw [hsk] at h
        simp only at h
        obtain ⟨ws, hws, hsp⟩ := SkipSpace_some s1 s2 hsk
        cases hsc : scanInt s2 with
        | none => rw [hsc] at h; cases h
        | some res =>
          obtain ⟨w, s3⟩ := res
          rw [hsc] at h
          obtain ⟨ws', sg, ds, hs2, hsp', hsg, hds, hdig⟩ := scanInt_some s2 s3 w hsc
          refine ⟨ws ++ ws', sg, ds, s3, ?_, ?_, hsg, hds, hdig, ?_⟩
          · rw [hlit, hws, hs2]; simp
          · intro x hx
            rcases List.mem_append.mp hx with hx | hx
            · exact hsp x hx
            · exact hsp' x hx
          · cases s3 with
            | nil => exact Or.inl rfl
            | cons c t =>
              right
              simp only at h
              by_cases hc : isSpace c = true
              · by_cases hc10 : c = 10
                · simp [hc, hc10] at h
                · exact ⟨c, t, rfl, hc, hc10⟩
              · simp [hc] at h
    · simp [hlit] at h

/-! # Properties of the decoder -/

/-! ## Canonical multibulk frames -/

/-- C1: for every k >= 1 and every list of k byte strings, `parseRequest` on the
canonical frame `*k\r\n` followed by `$len(p_i)\r\n p_i \r\n` succeeds with Name the
lowercase of the first payload and Args the remaining payloads: k-1 of them, in
wire order, byte for byte. The payloads are Go byte strings (length an `int`)
and the k-1 slice headers of Args are within what `make` allocates. -/
theorem parseRequest_canonical_frame (ul : List Nat → List Nat) (ps : List (List Nat))
    (e : IOErr) (hk : 1 ≤ ps.length) (hlen : ∀ p ∈ ps, fitsInt p.length)
    (halloc : sliceHeaderSize * (ps.length - 1) ≤ maxAlloc) :
    parseRequest ul ⟨⟨frame ps, e⟩⟩ = (.ok ⟨ToLower ul (ps.headD []), ps.tail⟩, ⟨[], e⟩) ∧
      ps.tail.length = ps.length - 1 := by
  cases ps with
  | nil => simp at hk
  | cons p1 t =>
    have h := parseRequest_frame ul p1 t [] e
      (fun p hp => (fitsInt_iff _).mp (hlen p hp)) (by simpa using halloc)
    rw [List.append_nil] at h
    exact ⟨h, by simp⟩

/-- Witness of C1: the frame of `SET foo bar`. -/
theorem parseRequest_canonical_frame_witness :
    parseRequest id ⟨⟨ascii "*3\r\n$3\r\nSET\r\n$3\r\nfoo\r\n$3\r\nbar\r\n", IOErr.EOF⟩⟩ =
      (.ok ⟨ascii "set", [ascii "foo", ascii "bar"]⟩, ⟨[], IOErr.EOF⟩) := by
  have h := (parseRequest_canonical_frame id [ascii "SET", ascii "foo", ascii "bar"] IOErr.EOF
    (by decide) (by decide) (by decide)).1
  have hf : frame [ascii "SET", ascii "foo", ascii "bar"] =
      ascii "*3\r\n$3\r\nSET\r\n$3\r\nfoo\r\n$3\r\nbar\r\n" := by decide
  have hn : ToLower id ([ascii "SET", ascii "foo", ascii "bar"].headD []) = ascii "set" := by
    decide
  rw [hf, hn] at h
  exact h

/-- C2: round trip. A request whose name is already lowercase, encoded as a
multibulk frame and decoded by `parseRequest`, comes back unchanged, whatever
bytes the arguments hold. -/
theorem parseRequest_encode (ul : List Nat → List Nat) (req : Request) (e : IOErr)
    (hname : ToLower ul req.Name = req.Name)
    (hlen : ∀ p ∈ req.Name :: req.Args, fitsInt p.length)
    (halloc : sliceHeaderSize * req.Args.length ≤ maxAlloc) :
    parseRequest ul ⟨⟨encode req, e⟩⟩ = (.ok req, ⟨[], e⟩) := by
  have h := parseRequest_frame ul req.Name req.Args [] e
    (fun p hp => (fitsInt_iff _).mp (hlen p hp)) halloc
  rw [List.append_nil, hname] at h
  exact h

/-- Witness of C2: arguments holding `\r\n`, a NUL byte and no byte at all. -/
theorem parseRequest_encode_witness :
    encode ⟨ascii "set", [ascii "a\r\nb", [0], []]⟩ =
        ascii "*4\r\n$3\r\nset\r\n$4\r\na\r\nb\r\n$1\r\n" ++ [0] ++ ascii "\r\n$0\r\n\r\n" ∧
      parseRequest id ⟨⟨encode ⟨ascii "set", [ascii "a\r\nb", [0], []]⟩, IOErr.EOF⟩⟩ =
        (.ok ⟨ascii "set", [ascii "a\r\nb", [0], []]⟩, ⟨[], IOErr.EOF⟩) :=
  ⟨by decide, parseRequest_encode id ⟨ascii "set", [ascii "a\r\nb", [0], []]⟩ IOErr.EOF
    (by decide) (by decide) (by decide)⟩

/-- C3: exact consumption. For a well-formed request `f` (a canonical frame or
an inline line) and any bytes `s`, decoding the stream `f ++ s` returns the
request that decoding `f` alone returns and leaves exactly `s` unread. -/
theorem parseRequest_consumes_exactly (ul : List Nat → List Nat) (f s : List Nat)
    (e e' : IOErr) (hf : CanonicalFrame f ∨ InlineLine f) :
    ∃ req : Request, parseRequest ul ⟨⟨f, e⟩⟩ = (.ok req, ⟨[], e⟩) ∧
      parseRequest ul ⟨⟨f ++ s, e'⟩⟩ = (.ok req, ⟨s, e'⟩) := by
  rcases hf with ⟨ps, hk, hlen, halloc, rfl⟩ | ⟨l, rfl, hl, hhead⟩
  · cases ps with
    | nil => simp at hk
    | cons p1 t =>
      have hlen' : ∀ p ∈ p1 :: t, p.length < 2 ^ 63 := fun p hp => (fitsInt_iff _).mp (hlen p hp)
      have halloc' : sliceHeaderSize * t.length ≤ maxAlloc := by simpa using halloc
      refine ⟨⟨ToLower ul p1, t⟩, ?_, parseRequest_frame ul p1 t s e' hlen' halloc'⟩
      have h := parseRequest_frame ul p1 t [] e hlen' halloc'
      rw [List.append_nil] at h
      exact h
  · refine ⟨⟨ToLower ul ((Split (Trim (l ++ [10]))).headD []), (Split (Trim (l ++ [10]))).tail⟩,
      ?_, ?_⟩
    · have h := ReadString_line l [] e hl
      unfold parseRequest
      simp only [h, hhead, if_false]
    · have h := ReadString_line l s e' hl
      unfold parseRequest
      rw [List.append_assoc]
      simp only [List.singleton_append, h, hhead, if_false]

/-- Witness of C3: a frame, then an inline line, each followed by `*1`. -/
theorem parseRequest_consumes_exactly_witness :
    (∃ req : Request,
      parseRequest id ⟨⟨frame [ascii "GET", ascii "k"], IOErr.EOF⟩⟩ = (.ok req, ⟨[], IOErr.EOF⟩) ∧
      parseRequest id ⟨⟨frame [ascii "GET", ascii "k"] ++ ascii "*1", IOErr.EOF⟩⟩ =
        (.ok req, ⟨ascii "*1", IOErr.EOF⟩)) ∧
    (∃ req : Request,
      parseRequest id ⟨⟨ascii "GET k\n", IOErr.EOF⟩⟩ = (.ok req, ⟨[], IOErr.EOF⟩) ∧
      parseRequest id ⟨⟨ascii "GET k\n" ++ ascii "*1", IOErr.EOF⟩⟩ =
        (.ok req, ⟨ascii "*1", IOErr.EOF⟩)) :=
  ⟨parseRequest_consumes_exactly id (frame [ascii "GET", ascii "k"]) (ascii "*1") IOErr.EOF
      IOErr.EOF (Or.inl ⟨[ascii "GET", ascii "k"], by decide, by decide, by decide, rfl⟩),
   parseRequest_consumes_exactly id (ascii "GET k\n") (ascii "*1") IOErr.EOF IOErr.EOF
      (Or.inr ⟨ascii "GET k", by decide, by decide, by decide⟩)⟩

/-! ## One argument -/

/-- C4: for every byte string `p` and every rest `s`, `readArgument` on
`$N\r\n` ++ p ++ `\r\n` ++ s, N the length of p, returns exactly `p`, whatever
bytes it holds, and leaves `s`. -/
theorem readArgument_binary_safe (p s : List Nat) (e : IOErr) (hp : fitsInt p.length) :
    readArgument ⟨argHeader p.length ++ p ++ CRLF ++ s, e⟩ = (.ok p, ⟨s, e⟩) :=
  readArgument_bulk p s e ((fitsInt_iff _).mp hp)

/-- Witness of C4: a payload made of `\r`, `\n` and NUL. -/
theorem readArgument_binary_safe_witness :
    readArgument ⟨ascii "$4\r\n" ++ [13, 10, 0, 10] ++ ascii "\r\n" ++ ascii "rest", IOErr.EOF⟩ =
      (.ok [13, 10, 0, 10], ⟨ascii "rest", IOErr.EOF⟩) :=
  readArgument_binary_safe [13, 10, 0, 10] (ascii "rest") IOErr.EOF (by decide)

/-! ## Inline requests -/

/-- C5, amended: for every first line that does not begin with `*`,
`parseRequest` succeeds with the line, stripped of every leading and every
trailing `\r` and `\n` (not only of its terminator), split at every single
space: the line is `pre ++ text ++ suf ++ "\n"` with `pre` and `suf` runs of
`\r` and `text` the tokens `toks` joined by single spaces; Name is the
lowercase of the first token and Args are the remaining tokens, in order, empty
ones kept. -/
theorem parseRequest_inline (ul : List Nat → List Nat) (pre suf s : List Nat)
    (toks : List (List Nat)) (e : IOErr)
    (hpre : ∀ b ∈ pre, b = 13) (hsuf : ∀ b ∈ suf, b = 13)
    (htoks : toks ≠ []) (hsp : ∀ t ∈ toks, ∀ b ∈ t, b ≠ 32 ∧ b ≠ 10)
    (hhead : (joinTokens toks).head? ≠ some 13) (hlast : (joinTokens toks).getLast? ≠ some 13)
    (hstar : (pre ++ joinTokens toks ++ suf ++ [10]).head? ≠ some 42) :
    parseRequest ul ⟨⟨pre ++ joinTokens toks ++ suf ++ [10] ++ s, e⟩⟩ =
      (.ok ⟨ToLower ul (toks.headD []), toks.tail⟩, ⟨s, e⟩) := by
  have hj : ∀ b ∈ joinTokens toks, b ≠ 10 := by
    intro b hb
    rcases joinTokens_mem toks b hb with h | ⟨t, ht, hbt⟩
    · omega
    · exact (hsp t ht b hbt).2
  have hline : ∀ b ∈ pre ++ joinTokens toks ++ suf, b ≠ 10 := by
    intro b hb
    simp only [List.mem_append] at hb
    rcases hb with (h | h) | h
    · have := hpre b h; omega
    · exact hj b h
    · have := hsuf b h; omega
  have hread := ReadString_line (pre ++ joinTokens toks ++ suf) s e hline
  have hh10 : (joinTokens toks).head? ≠ some 10 := by
    intro h
    exact hj 10 (List.mem_of_mem_head? h) rfl
  have hl10 : (joinTokens toks).getLast? ≠ some 10 := by
    intro h
    exact hj 10 (List.mem_of_getLast?_eq_some h) rfl
  have htrim := Trim_line pre (joinTokens toks) suf hpre hsuf ⟨hhead, hh10⟩ ⟨hlast, hl10⟩
  have hsplit := Split_joinTokens toks htoks (fun t ht b hb => (hsp t ht b hb).1)
  unfold parseRequest
  rw [List.append_assoc _ [10] s]
  simp only [List.singleton_append, hread, hstar, if_false, htrim, hsplit]

/-- Witness of C5: `PING\r\n`, the empty line, consecutive spaces, and a line
with a leading and a second trailing `\r`. -/
theorem parseRequest_inline_witness :
    parseRequest id ⟨⟨ascii "PING\r\n", IOErr.EOF⟩⟩ =
        (.ok ⟨ascii "ping", []⟩, ⟨[], IOErr.EOF⟩) ∧
      parseRequest id ⟨⟨ascii "\r\n", IOErr.EOF⟩⟩ = (.ok ⟨[], []⟩, ⟨[], IOErr.EOF⟩) ∧
      parseRequest id ⟨⟨ascii "SET  a\r\n", IOErr.EOF⟩⟩ =
        (.ok ⟨ascii "set", [[], ascii "a"]⟩, ⟨[], IOErr.EOF⟩) ∧
      parseRequest id ⟨⟨ascii "\rGET a\r\r\n", IOErr.EOF⟩⟩ =
        (.ok ⟨ascii "get", [ascii "a"]⟩, ⟨[], IOErr.EOF⟩) :=
  ⟨parseRequest_inline id [] [13] [] [ascii "PING"] IOErr.EOF
      (by decide) (by decide) (by decide) (by decide) (by decide) (by decide) (by decide),
   parseRequest_inline id [] [13] [] [[]] IOErr.EOF
      (by decide) (by decide) (by decide) (by decide) (by decide) (by decide) (by decide),
   parseRequest_inline id [] [13] [] [ascii "SET", [], ascii "a"] IOErr.EOF
      (by decide) (by decide) (by decide) (by decide) (by decide) (by decide) (by decide),
   parseRequest_inline id [13] [13, 13] [] [ascii "GET", ascii "a"] IOErr.EOF
      (by decide) (by decide) (by decide) (by decide) (by decide) (by decide) (by decide)⟩

/-- Counterexample to C5 as stated: the text before the terminator of
`GET a\r\r\n` is `GET a\r`, whose split at spaces is `GET`, `a\r`; the decoder
returns the argument `a`, the `\r` stripped. -/
theorem inline_extra_cr_is_stripped :
    ascii "GET a\r\r\n" = joinTokens [ascii "GET", ascii "a\r"] ++ ascii "\r\n" ∧
      parseRequest id ⟨⟨ascii "GET a\r\r\n", IOErr.EOF⟩⟩ =
        (.ok ⟨ascii "get", [ascii "a"]⟩, ⟨[], IOErr.EOF⟩) ∧
      [ascii "a"] ≠ [ascii "a\r"] := by
  decide

/-! ## Counts that are not positive -/

/-- C6, the code at the failing inputs: with a declared count of -1 or 0 and
one well-formed argument, `parseRequest` aborts in `make([][]byte, argsCount-1)`
and returns neither a Request nor an error. -/
theorem parseRequest_panics_nonpositive_count :
    (parseRequest id ⟨⟨ascii "*-1\r\n$4\r\nPING\r\n", IOErr.EOF⟩⟩).1 = Outcome.panic ∧
      (parseRequest id ⟨⟨ascii "*0\r\n$4\r\nPING\r\n", IOErr.EOF⟩⟩).1 = Outcome.panic := by
  decide

/-! ## Failures of one argument -/

/-- C7: after the header `$N\r\n`, when the stream holds only m < N bytes
before it ends, `readArgument` fails with `malformedLength(N, m)` and returns no
payload. `N` is a value of `int`. -/
theorem readArgument_truncated (N : Nat) (data : List Nat) (hN : fitsInt N)
    (hm : data.length < N) :
    readArgument ⟨argHeader N ++ data, IOErr.EOF⟩ =
      (.error (malformedLength (N : Int) (data.length : Int)), ⟨[], IOErr.EOF⟩) := by
  have hshape : argHeader N ++ data = 36 :: itoa N ++ CRLF ++ data := by simp [argHeader]
  have hpos : ¬ ((N : Int) ≤ 0) := by omega
  have hshort : ¬ (N ≤ data.length) := by omega
  have hne : ¬ ((data.length : Int) = (N : Int)) := by omega
  unfold readArgument
  rw [hshape, ReadString_header 36 N (by decide) _ IOErr.EOF]
  simp only [Sscanf_header 36 N (by decide) ((fitsInt_iff N).mp hN), ReadAllLimit, hpos,
    if_false, Int.toNat_ofNat, hshort, if_true, ne_eq, hne, not_false_eq_true]

/-- Witness of C7: three bytes after a header that declares five. -/
theorem readArgument_truncated_witness :
    readArgument ⟨ascii "$5\r\n" ++ ascii "abc", IOErr.EOF⟩ =
      (.error (malformedLength 5 3), ⟨[], IOErr.EOF⟩) :=
  readArgument_truncated 5 (ascii "abc") (by decide) (by decide)

/-- C8: after the header `$N\r\n` and N payload bytes, `readArgument` succeeds
when the next two bytes are `\r` then `\n`, and fails with
`malformedMissingCRLF` in every other case (a wrong byte, or the stream ending
before either byte). -/
theorem readArgument_terminator (p tl : List Nat) (e : IOErr) (hp : fitsInt p.length) :
    (readArgument ⟨argHeader p.length ++ p ++ tl, e⟩).1 =
      if tl.take 2 = [13, 10] then .ok p else .error malformedMissingCRLF := by
  have hshape : argHeader p.length ++ p ++ tl = 36 :: itoa p.length ++ CRLF ++ (p ++ tl) := by
    simp [argHeader]
  unfold readArgument
  rw [hshape, ReadString_header 36 p.length (by decide) _ e]
  simp only [Sscanf_header 36 p.length (by decide) ((fitsInt_iff _).mp hp), ReadAllLimit_exact,
    ne_eq, not_true_eq_false, if_false]
  cases tl with
  | nil => simp [ReadByte]
  | cons a t =>
    cases t with
    | nil =>
      by_cases ha : a = 13
      · simp [ReadByte, ha]
      · simp [ReadByte, ha]
    | cons b t =>
      by_cases ha : a = 13
      · by_cases hb : b = 10
        · simp [ReadByte, ha, hb]
        · simp [ReadByte, ha, hb]
      · simp [ReadByte, ha]

/-- Witness of C8: the payload `foo` followed by `\r\n`, by `\rX`, by `\r` alone
and by nothing. -/
theorem readArgument_terminator_witness :
    (readArgument ⟨ascii "$3\r\nfoo" ++ ascii "\r\n", IOErr.EOF⟩).1 = .ok (ascii "foo") ∧
      (readArgument ⟨ascii "$3\r\nfoo" ++ ascii "\rX", IOErr.EOF⟩).1 =
        .error malformedMissingCRLF ∧
      (readArgument ⟨ascii "$3\r\nfoo" ++ ascii "\r", IOErr.EOF⟩).1 =
        .error malformedMissingCRLF ∧
      (readArgument ⟨ascii "$3\r\nfoo" ++ [], IOErr.EOF⟩).1 = .error malformedMissingCRLF :=
  ⟨readArgument_terminator (ascii "foo") (ascii "\r\n") IOErr.EOF (by decide),
   readArgument_terminator (ascii "foo") (ascii "\rX") IOErr.EOF (by decide),
   readArgument_terminator (ascii "foo") (ascii "\r") IOErr.EOF (by decide),
   readArgument_terminator (ascii "foo") [] IOErr.EOF (by decide)⟩

/-! ## The count header -/

/-- C9, amended: for every first line that begins with `*` and that, as
`Sscanf` reads it, is not `*`, optional white space, an optionally signed run
of decimal digits and then a white-space character other than a newline (or the
end of what `Sscanf` reads), `parseRequest` fails with
`malformed("*<numberOfArguments>", line)` and returns no Request. -/
theorem parseRequest_malformed_count (ul : List Nat → List Nat) (l s : List Nat) (e : IOErr)
    (hl : ∀ b ∈ l, b ≠ 10) (hstar : (l ++ [10]).head? = some 42)
    (hbad : ¬ LenientHeader 42 ((readRunes (l ++ [10])).take hugeWid)) :
    parseRequest ul ⟨⟨l ++ [10] ++ s, e⟩⟩ =
      (.error (malformed "*<numberOfArguments>" (l ++ [10])), ⟨s, e⟩) := by
  have hread := ReadString_line l s e hl
  unfold parseRequest
  rw [List.append_assoc]
  simp only [List.singleton_append, hread, hstar, if_true]
  cases hsc : Sscanf 42 (l ++ [10]) with
  | none => rfl
  | some v => exact absurd (Sscanf_some 42 _ v hsc) hbad

/-- Witness of C9: `*X\r\n`. -/
theorem parseRequest_malformed_count_witness :
    parseRequest id ⟨⟨ascii "*X\r\n", IOErr.EOF⟩⟩ =
      (.error (malformed "*<numberOfArguments>" (ascii "*X\r\n")), ⟨[], IOErr.EOF⟩) := by
  have hbad : ¬ LenientHeader 42 ((readRunes (ascii "*X\r" ++ [10])).take hugeWid) := by
    have hr : (readRunes (ascii "*X\r" ++ [10])).take hugeWid = [42, 88, 13, 10] := by decide
    rw [hr]
    rintro ⟨ws, sg, ds, tl, heq, hws, hsg, hds, hdig, -⟩
    simp only [List.cons.injEq, true_and] at heq
    cases ws with
    | cons w ws' =>
      simp only [List.cons_append, List.cons.injEq] at heq
      have := (hws w (List.mem_cons_self _ _)).1
      rw [← heq.1] at this
      exact absurd this (by decide)
    | nil =>
      rcases hsg with rfl | rfl | rfl
      · cases ds with
        | nil => exact hds rfl
        | cons d ds' =>
          simp only [List.nil_append, List.cons_append, List.cons.injEq] at heq
          have := hdig d (List.mem_cons_self _ _)
          omega
      · simp at heq
      · simp at heq
  exact parseRequest_malformed_count id (ascii "*X\r") [] IOErr.EOF (by decide) (by decide) hbad

/-- Counterexample to C9 as stated: in `* 1\r\n` the remainder begins with a
space, in `*1 \n` the integer is followed by a space and no `\r`; both lines
are accepted as the count 1 and the request is decoded. -/
theorem parseRequest_lenient_count :
    parseRequest id ⟨⟨ascii "* 1\r\n$4\r\nPING\r\n", IOErr.EOF⟩⟩ =
        (.ok ⟨ascii "ping", []⟩, ⟨[], IOErr.EOF⟩) ∧
      parseRequest id ⟨⟨ascii "*1 \n$4\r\nPING\r\n", IOErr.EOF⟩⟩ =
        (.ok ⟨ascii "ping", []⟩, ⟨[], IOErr.EOF⟩) := by
  decide

/-! ## An argument that contains `\r\n` -/

/-- C10, amended: the argument `he\r\nlo` has six bytes; with the declared
length 6 the frame decodes to name `get` and that single argument. -/
theorem parseRequest_crlf_argument :
    parseRequest id ⟨⟨ascii "*2\r\n$3\r\nGET\r\n$6\r\nhe\r\nlo\r\n", IOErr.EOF⟩⟩ =
      (.ok ⟨ascii "get", [ascii "he\r\nlo"]⟩, ⟨[], IOErr.EOF⟩) := by
  decide

/-- Counterexample to C10 as stated: with the declared length 5 the payload read
is `he\r\nl`, the byte after it is `o` and not `\r`, and decoding fails with
`malformedMissingCRLF`. -/
theorem crlf_argument_declared_five_fails :
    parseRequest id ⟨⟨ascii "*2\r\n$3\r\nGET\r\n$5\r\nhe\r\nlo\r\n", IOErr.EOF⟩⟩ =
      (.error malformedMissingCRLF, ⟨ascii "\r\n", IOErr.EOF⟩) := by
  decide

/-! ## More lemmas

### The argument loop -/

theorem readArgs_first_error (r rk r' : Reader) (done : List (List Nat)) (err : Error)
    (hdone : ReadsOk r done rk) (hfail : readArgument rk = (.error err, r')) (n : Nat)
    (hn : done.length < n) : readArgs n r = (.error err, r') := by
  induction hdone generalizing n with
  | nil r =>
    cases n with
    | zero => simp at hn
    | succ n => simp only [readArgs, hfail]
  | cons r r1 r2 a rest ha _ ih =>
    cases n with
    | zero => simp at hn
    | succ n =>
      have hn' : rest.length < n := by simpa using hn
      simp only [readArgs, ha, ih hfail n hn']

theorem readArgs_length (n : Nat) (r r' : Reader) (args : List (List Nat))
    (h : readArgs n r = (.ok args, r')) : args.length = n := by
  induction n generalizing r args with
  | zero =>
    simp only [readArgs, Prod.mk.injEq, Except.ok.injEq] at h
    rw [← h.1]; rfl
  | succ n ih =>
    unfold readArgs at h
    cases ha : readArgument r with
    | mk res r1 =>
      rw [ha] at h
      cases res with
      | error e => simp at h
      | ok a =>
        simp only at h
        cases hr : readArgs n r1 with
        | mk res2 r2 =>
          rw [hr] at h
          cases res2 with
          | error e => simp at h
          | ok rest =>
            simp only [Prod.mk.injEq, Except.ok.injEq] at h
            obtain ⟨h1, h2⟩ := h
            subst h1
            subst h2
            rw [List.length_cons, ih r1 rest hr]

/-! ### The range of a scanned count -/

theorem ParseInt_range (s : List Nat) (v : Int) (h : ParseInt s = some v) :
    -(2 ^ 63) ≤ v ∧ v < 2 ^ 63 := by
  unfold ParseInt at h
  cases s with
  | nil => cases h
  | cons c t =>
    simp only at h
    cases hu : ParseUint (if c = 43 ∨ c = 45 then t else c :: t) with
    | none => rw [hu] at h; cases h
    | some un =>
      rw [hu] at h
      simp only at h
      by_cases hneg : c = 45
      · simp only [hneg, decide_True, Bool.not_true, Bool.false_and, Bool.false_eq_true,
          if_false, Bool.true_and, decide_eq_true_eq, if_true] at h
        by_cases hbig : 2 ^ 63 < un
        · rw [if_pos hbig] at h; cases h
        · rw [if_neg hbig] at h
          simp only [Option.some.injEq] at h
          omega
      · simp only [hneg, decide_False, Bool.not_false, Bool.true_and, decide_eq_true_eq,
          Bool.false_and, Bool.false_eq_true, if_false] at h
        by_cases hbig : 2 ^ 63 ≤ un
        · rw [if_pos hbig] at h; cases h
        · rw [if_neg hbig] at h
          simp only [Option.some.injEq] at h
          omega

theorem scanInt_range (s s3 : List Nat) (v : Int) (h : scanInt s = some (v, s3)) :
    -(2 ^ 63) ≤ v ∧ v < 2 ^ 63 := by
  unfold scanInt at h
  cases hsk : SkipSpace s with
  | none => rw [hsk] at h; cases h
  | some s1 =>
    rw [hsk] at h
    cases s1 with
    | nil => cases h
    | cons c t =>
      simp only at h
      by_cases hd : (if isSign c = true then t else c :: t).takeWhile isDecimalDigit = []
      · rw [if_pos hd] at h; cases h
      · rw [if_neg hd] at h
        cases hp : ParseInt ((if isSign c = true then [c] else []) ++
            (if isSign c = true then t else c :: t).takeWhile isDecimalDigit) with
        | none => rw [hp] at h; cases h
        | some w =>
          rw [hp] at h
          simp only [Option.some.injEq, Prod.mk.injEq] at h
          rw [← h.1]
          exact ParseInt_range _ w hp

/-- What `Sscanf` stores is a value of `int`. -/
theorem Sscanf_range (lit : Nat) (str : List Nat) (v : Int) (h : Sscanf lit str = some v) :
    -(2 ^ 63) ≤ v ∧ v < 2 ^ 63 := by
  unfold Sscanf at h
  cases hr : (readRunes str).take hugeWid with
  | nil => rw [hr] at h; cases h
  | cons r s1 =>
    rw [hr] at h
    simp only at h
    by_cases hlit : r = lit
    · simp only [hlit, ne_eq, not_true_eq_false, if_false] at h
      cases hsk : SkipSpace s1 with
      | none => rw [hsk] at h; cases h
      | some s2 =>
        rw [hsk] at h
        simp only at h
        cases hsc : scanInt s2 with
        | none => rw [hsc] at h; cases h
        | some res =>
          obtain ⟨w, s3⟩ := res
          rw [hsc] at h
          have hw := scanInt_range s2 s3 w hsc
          cases s3 with
          | nil =>
            simp only [Option.some.injEq] at h
            rw [← h]; exact hw
          | cons c t =>
            simp only at h
            by_cases hc : isSpace c = true
            · by_cases hc10 : c = 10
              · simp [hc, hc10] at h
              · simp only [hc, Bool.not_true, Bool.false_eq_true, if_false, hc10,
                  Option.some.injEq] at h
                rw [← h]; exact hw
            · simp [hc] at h
    · simp [hlit] at h

/-- When `make([][]byte, argsCount-1)` panics, for a count that is an `int`. -/
theorem makeslicePanics_iff (c : Int) (h0 : -(2 ^ 63) ≤ c) (h1 : c < 2 ^ 63) :
    makeslicePanics (wrapInt (c - 1)) = true ↔
      (c ≤ 0 ∨ (maxAlloc : Int) < sliceHeaderSize * (c - 1)) := by
  simp only [makeslicePanics, wrapInt, maxAlloc, sliceHeaderSize, Bool.or_eq_true,
    decide_eq_true_eq]
  push_cast
  omega

theorem wrapInt_pred_of_ok (c : Int) (h0 : -(2 ^ 63) ≤ c) (h1 : c < 2 ^ 63)
    (h : makeslicePanics (wrapInt (c - 1)) = false) :
    wrapInt (c - 1) = c - 1 ∧ 0 ≤ c - 1 := by
  simp only [makeslicePanics, wrapInt, maxAlloc, sliceHeaderSize, Bool.or_eq_false_iff,
    decide_eq_false_iff_not] at h
  unfold wrapInt
  push_cast at h
  omega

/-! ### Splitting and stripping -/

theorem Split_no_space (s : List Nat) : ∀ t ∈ Split s, ∀ b ∈ t, b ≠ 32 := by
  induction s with
  | nil => intro t ht b hb; simp [Split] at ht; simp [ht] at hb
  | cons x xs ih =>
    intro t ht b hb
    unfold Split at ht
    by_cases hx : x = 32
    · rw [if_pos hx] at ht
      rcases List.mem_cons.mp ht with h | h
      · rw [h] at hb; simp at hb
      · exact ih t h b hb
    · rw [if_neg hx] at ht
      cases hs : Split xs with
      | nil => exact absurd hs (Split_ne_nil xs)
      | cons t0 ts =>
        rw [hs] at ht ih
        simp only at ht
        rcases List.mem_cons.mp ht with h | h
        · rw [h] at hb
          rcases List.mem_cons.mp hb with hb | hb
          · omega
          · exact ih t0 (List.mem_cons_self _ _) b hb
        · exact ih t (List.mem_cons_of_mem _ h) b hb

theorem joinTokens_Split (s : List Nat) : joinTokens (Split s) = s := by
  induction s with
  | nil => rfl
  | cons x xs ih =>
    cases hs : Split xs with
    | nil => exact absurd hs (Split_ne_nil xs)
    | cons t0 ts =>
      rw [hs] at ih
      unfold Split
      by_cases hx : x = 32
      · rw [if_pos hx, hs]
        simp only [joinTokens, List.nil_append, ih, hx]
      · rw [if_neg hx, hs]
        simp only
        cases ts with
        | nil =>
          simp only [joinTokens] at ih ⊢
          rw [ih]
        | cons t1 ts' =>
          simp only [joinTokens] at ih ⊢
          rw [List.cons_append, ih]

/-- Every line is a run of `\r`, a text that neither begins nor ends with `\r`,
and a run of `\r`. -/
theorem strip_cr_decomposition (l : List Nat) :
    ∃ pre text suf : List Nat, l = pre ++ text ++ suf ∧ (∀ b ∈ pre, b = 13) ∧
      (∀ b ∈ suf, b = 13) ∧ text.head? ≠ some 13 ∧ text.getLast? ≠ some 13 := by
  let p : Nat → Bool := fun b => decide (b = 13)
  have hm : l = l.takeWhile p ++ l.dropWhile p := (List.takeWhile_append_dropWhile p l).symm
  have hrev : (l.dropWhile p).reverse =
      (l.dropWhile p).reverse.takeWhile p ++ (l.dropWhile p).reverse.dropWhile p :=
    (List.takeWhile_append_dropWhile p _).symm
  have hmid : l.dropWhile p = ((l.dropWhile p).reverse.dropWhile p).reverse ++
      ((l.dropWhile p).reverse.takeWhile p).reverse := by
    have := congrArg List.reverse hrev
    rw [List.reverse_reverse, List.reverse_append] at this
    exact this
  have hlast : (((l.dropWhile p).reverse.dropWhile p).reverse).getLast? ≠ some 13 := by
    rw [List.getLast?_reverse]
    intro h
    have := List.head?_dropWhile_not p (l.dropWhile p).reverse
    rw [h] at this
    simp [p] at this
  have hhead0 : (l.dropWhile p).head? ≠ some 13 := by
    intro h
    have := List.head?_dropWhile_not p l
    rw [h] at this
    simp [p] at this
  refine ⟨l.takeWhile p, ((l.dropWhile p).reverse.dropWhile p).reverse,
    ((l.dropWhile p).reverse.takeWhile p).reverse, ?_, ?_, ?_, ?_, hlast⟩
  · rw [List.append_assoc, ← hmid]; exact hm
  · intro b hb
    have := List.mem_takeWhile_imp hb
    simpa [p] using this
  · intro b hb
    have := List.mem_takeWhile_imp (List.mem_reverse.mp hb)
    simpa [p] using this
  · cases ht : ((l.dropWhile p).reverse.dropWhile p).reverse with
    | nil => simp
    | cons x xs =>
      rw [ht] at hmid
      rw [hmid] at hhead0
      simpa using hhead0

/-! ### The outcome of `parseRequest` when memory is bounded -/

/-- When `make([][]byte, argsCount-1)` ends the run, for a count that is an `int`. -/
theorem makeAborts_iff (avail : Nat) (c : Int) (h0 : -(2 ^ 63) ≤ c) (h1 : c < 2 ^ 63) :
    makeAborts avail (wrapInt (c - 1)) = true ↔
      (c ≤ 0 ∨ (maxAlloc : Int) < sliceHeaderSize * (c - 1) ∨
        (avail : Int) < sliceHeaderSize * (c - 1)) := by
  simp only [makeAborts, makeslicePanics, wrapInt, maxAlloc, sliceHeaderSize, Bool.or_eq_true,
    decide_eq_true_eq]
  push_cast
  omega

theorem makeAborts_false (avail : Nat) (len : Int) (h : makeAborts avail len = false) :
    makeslicePanics len = false := by
  simp only [makeAborts, Bool.or_eq_false_iff] at h
  exact h.1

/-- With at least `maxAlloc` bytes to obtain, `make` ends the run only by its panic. -/
theorem makeAborts_unbounded (avail : Nat) (len : Int) (h : maxAlloc ≤ avail) :
    makeAborts avail len = makeslicePanics len := by
  have h' : (maxAlloc : Int) ≤ (avail : Int) := by exact_mod_cast h
  by_cases hp : makeslicePanics len = true
  · simp [makeAborts, hp]
  · have hp' : makeslicePanics len = false := by simpa using hp
    have hp2 := hp'
    simp only [makeslicePanics, Bool.or_eq_false_iff, decide_eq_false_iff_not] at hp2
    have hlt : ¬ ((avail : Int) < (sliceHeaderSize : Int) * len) := by omega
    simp [makeAborts, hp', hlt]

/-- The decoder with unbounded memory is `parseRequest`. -/
theorem parseRequestWithin_unbounded (avail : Nat) (ul : List Nat → List Nat) (c : Conn)
    (h : maxAlloc ≤ avail) : parseRequestWithin avail ul c = parseRequest ul c := by
  unfold parseRequestWithin parseRequest
  simp only [makeAborts_unbounded avail _ h]

theorem parseRequestWithin_panic_iff_aux (avail : Nat) (ul : List Nat → List Nat) (c : Conn) :
    (parseRequestWithin avail ul c).1 = Outcome.panic ↔ AbortsInMake avail c := by
  rcases hrs : ReadString c.r 10 with ⟨line, oerr, r1⟩
  cases oerr with
  | some err =>
    constructor
    · intro h
      simp [parseRequestWithin, hrs] at h
    · rintro ⟨line', r1', cnt, a, r2, hrs', -⟩
      rw [hrs] at hrs'
      simp at hrs'
  | none =>
    by_cases hh : line.head? = some 42
    · cases hsc : Sscanf 42 line with
      | none =>
        constructor
        · intro h
          simp [parseRequestWithin, hrs, hh, hsc] at h
        · rintro ⟨line', r1', cnt, a, r2, hrs', -, hsc', -⟩
          rw [hrs] at hrs'
          simp only [Prod.mk.injEq, true_and] at hrs'
          rw [← hrs'.1, hsc] at hsc'
          cases hsc'
      | some cnt =>
        have hrange := Sscanf_range 42 line cnt hsc
        rcases hra : readArgument r1 with ⟨res, r2⟩
        cases res with
        | error err =>
          constructor
          · intro h
            simp [parseRequestWithin, hrs, hh, hsc, hra] at h
          · rintro ⟨line', r1', cnt', a, r2', hrs', -, -, hra', -⟩
            rw [hrs] at hrs'
            simp only [Prod.mk.injEq, true_and] at hrs'
            rw [← hrs'.2, hra] at hra'
            simp at hra'
        | ok a =>
          by_cases hmk : makeAborts avail (wrapInt (cnt - 1)) = true
          · constructor
            · intro _
              exact ⟨line, r1, cnt, a, r2, hrs, hh, hsc, hra,
                (makeAborts_iff avail cnt hrange.1 hrange.2).mp hmk⟩
            · intro _
              simp [parseRequestWithin, hrs, hh, hsc, hra, hmk]
          · constructor
            · intro h
              simp only [parseRequestWithin, hrs, hh, if_true, hsc, hra, hmk, Bool.false_eq_true,
                if_false] at h
              rcases hargs : readArgs (wrapInt (cnt - 1)).toNat r2 with ⟨res2, r3⟩
              rw [hargs] at h
              cases res2 <;> simp at h
            · rintro ⟨line', r1', cnt', a', r2', hrs', -, hsc', -, hcond⟩
              rw [hrs] at hrs'
              simp only [Prod.mk.injEq, true_and] at hrs'
              rw [← hrs'.1, hsc] at hsc'
              simp only [Option.some.injEq] at hsc'
              rw [← hsc'] at hcond
              exact absurd ((makeAborts_iff avail cnt hrange.1 hrange.2).mpr hcond) hmk
    · constructor
      · intro h
        simp [parseRequestWithin, hrs, hh] at h
      · rintro ⟨line', r1', cnt, a, r2, hrs', hh', -⟩
        rw [hrs] at hrs'
        simp only [Prod.mk.injEq, true_and] at hrs'
        rw [← hrs'.1] at hh'
        exact absurd hh' hh

theorem parseRequestWithin_args_length_aux (avail : Nat) (ul : List Nat → List Nat) (c : Conn)
    (line : List Nat) (r1 : Reader) (argsCount : Int) (req : Request)
    (hrs : ReadString c.r 10 = (line, none, r1)) (hh : line.head? = some 42)
    (hsc : Sscanf 42 line = some argsCount) (hok : (parseRequestWithin avail ul c).1 = .ok req) :
    (req.Args.length : Int) = argsCount - 1 := by
  have hrange := Sscanf_range 42 line argsCount hsc
  rcases hra : readArgument r1 with ⟨res, r2⟩
  cases res with
  | error err => simp [parseRequestWithin, hrs, hh, hsc, hra] at hok
  | ok a =>
    by_cases hmk : makeAborts avail (wrapInt (argsCount - 1)) = true
    · simp [parseRequestWithin, hrs, hh, hsc, hra, hmk] at hok
    · have hmk' : makeAborts avail (wrapInt (argsCount - 1)) = false := by simpa using hmk
      obtain ⟨hw, hpos⟩ := wrapInt_pred_of_ok argsCount hrange.1 hrange.2
        (makeAborts_false avail _ hmk')
      simp only [parseRequestWithin, hrs, hh, if_true, hsc, hra, hmk, Bool.false_eq_true,
        if_false] at hok
      rcases hargs : readArgs (wrapInt (argsCount - 1)).toNat r2 with ⟨res2, r3⟩
      rw [hargs] at hok
      cases res2 with
      | error err => simp at hok
      | ok args =>
        simp only [Outcome.ok.injEq] at hok
        have hlen := readArgs_length _ r2 r3 args hargs
        rw [← hok]
        simp only
        rw [hlen, hw, Int.toNat_of_nonneg hpos]

/-! # Further properties of the decoder -/

/-! ## A declared length that reaches over the terminator -/

/-- C11, amended: in `*2\r\n$5\r\nabc\r\n` the five declared bytes are
`abc\r\n`, the stream ends where the terminator is required, and decoding
fails with `malformedMissingCRLF`; the length mismatch `malformedLength(5, 3)`
is what the same frame without the last two bytes gives. -/
theorem parseRequest_declared_five_abc (ul : List Nat → List Nat) :
    parseRequest ul ⟨⟨ascii "*2\r\n$5\r\nabc\r\n", IOErr.EOF⟩⟩ =
        (.error malformedMissingCRLF, ⟨[], IOErr.EOF⟩) ∧
      parseRequest ul ⟨⟨ascii "*2\r\n$5\r\nabc", IOErr.EOF⟩⟩ =
        (.error (malformedLength 5 3), ⟨[], IOErr.EOF⟩) := by
  constructor <;> rfl

/-- Counterexample to C11 as stated: the error returned for
`*2\r\n$5\r\nabc\r\n` is the missing-terminator error, which is no
length-mismatch error. -/
theorem abc_with_terminator_is_not_truncated :
    (parseRequest id ⟨⟨ascii "*2\r\n$5\r\nabc\r\n", IOErr.EOF⟩⟩).1 =
        .error malformedMissingCRLF ∧
      ∀ expected got : Int, malformedMissingCRLF ≠ malformedLength expected got := by
  refine ⟨by decide, ?_⟩
  intro expected got h
  cases h

/-! ## A first line that begins with `$` -/

/-- C12, amended: the first line of `$3\r\nfoo\r\n` does not begin with `*`, so
it is decoded as the inline request with name `$3` and no argument; `foo\r\n`
is left on the stream. -/
theorem parseRequest_dollar_line (ul : List Nat → List Nat) (e : IOErr) :
    parseRequest ul ⟨⟨ascii "$3\r\nfoo\r\n", e⟩⟩ =
      (.ok ⟨ascii "$3", []⟩, ⟨ascii "foo\r\n", e⟩) := by
  rfl

/-- Counterexample to C12 as stated: decoding `$3\r\nfoo\r\n` returns a Request
and no error. -/
theorem dollar_line_is_no_error :
    (parseRequest id ⟨⟨ascii "$3\r\nfoo\r\n", IOErr.EOF⟩⟩).1 = .ok ⟨ascii "$3", []⟩ ∧
      ∀ err : Error, (parseRequest id ⟨⟨ascii "$3\r\nfoo\r\n", IOErr.EOF⟩⟩).1 ≠ .error err := by
  refine ⟨by decide, ?_⟩
  intro err h
  have h' : (parseRequest id ⟨⟨ascii "$3\r\nfoo\r\n", IOErr.EOF⟩⟩).1 = .ok ⟨ascii "$3", []⟩ := by
    decide
  rw [h'] at h
  cases h

/-! ## No partial request -/

/-- C13: in a multibulk input, when the calls of `readArgument` before some
call succeed and that call fails, `parseRequest` returns the error of that
call, unchanged, and no Request; the arguments read before it are dropped. The
failing call is one `parseRequest` makes: the read of the command name, or a
later one that the count asks for, the argument slice being allocated. -/
theorem parseRequest_first_error (ul : List Nat → List Nat) (l rest : List Nat) (e : IOErr)
    (argsCount : Int) (done : List (List Nat)) (rk r' : Reader) (err : Error)
    (hl : ∀ b ∈ l, b ≠ 10) (hstar : (l ++ [10]).head? = some 42)
    (hcount : Sscanf 42 (l ++ [10]) = some argsCount)
    (hdone : ReadsOk ⟨rest, e⟩ done rk)
    (hfail : readArgument rk = (.error err, r'))
    (hcalled : done = [] ∨ ((done.length : Int) < argsCount ∧
      (sliceHeaderSize : Int) * (argsCount - 1) ≤ maxAlloc)) :
    parseRequest ul ⟨⟨l ++ [10] ++ rest, e⟩⟩ = (.error err, r') := by
  have hread := ReadString_line l rest e hl
  unfold parseRequest
  rw [List.append_assoc]
  simp only [List.singleton_append, hread, hstar, if_true, hcount]
  cases hdone with
  | nil => simp only [hfail]
  | cons _ r1 _ a later ha hlater =>
    rcases hcalled with h | ⟨hlt, halloc⟩
    · cases h
    · simp only [sliceHeaderSize, maxAlloc] at halloc
      simp only [List.length_cons] at hlt
      push_cast at halloc hlt
      have hlen : (0 : Int) ≤ (later.length : Int) := Int.ofNat_nonneg _
      have hwrap : wrapInt (argsCount - 1) = argsCount - 1 :=
        wrapInt_of_range _ (by omega) (by omega)
      have hmake : makeslicePanics (argsCount - 1) = false := by
        simp only [makeslicePanics, sliceHeaderSize, maxAlloc, Bool.or_eq_false_iff,
          decide_eq_false_iff_not]
        push_cast
        omega
      have hn : later.length < (argsCount - 1).toNat := by omega
      simp only [ha, hwrap, hmake, Bool.false_eq_true, if_false,
        readArgs_first_error r1 rk r' later err hlater hfail _ hn]

/-- Witness of C13: the third argument of a frame of three is cut short, and
the command name of a frame is cut short. -/
theorem parseRequest_first_error_witness :
    parseRequest id ⟨⟨ascii "*3\r" ++ [10] ++ ascii "$3\r\nSET\r\n$3\r\nfoo\r\n$9\r\nbar",
        IOErr.EOF⟩⟩ = (.error (malformedLength 9 3), ⟨[], IOErr.EOF⟩) ∧
      parseRequest id ⟨⟨ascii "*3\r" ++ [10] ++ ascii "$3\r\nSE", IOErr.EOF⟩⟩ =
        (.error (malformedLength 3 2), ⟨[], IOErr.EOF⟩) :=
  ⟨parseRequest_first_error id (ascii "*3\r") (ascii "$3\r\nSET\r\n$3\r\nfoo\r\n$9\r\nbar")
      IOErr.EOF 3 [ascii "SET", ascii "foo"] ⟨ascii "$9\r\nbar", IOErr.EOF⟩ ⟨[], IOErr.EOF⟩
      (malformedLength 9 3) (by decide) (by decide) (by decide)
      (ReadsOk.cons _ ⟨ascii "$3\r\nfoo\r\n$9\r\nbar", IOErr.EOF⟩ _ _ _ (by rfl)
        (ReadsOk.cons _ ⟨ascii "$9\r\nbar", IOErr.EOF⟩ _ _ _ (by rfl) (ReadsOk.nil _)))
      (by rfl) (Or.inr (by decide)),
   parseRequest_first_error id (ascii "*3\r") (ascii "$3\r\nSE") IOErr.EOF 3 []
      ⟨ascii "$3\r\nSE", IOErr.EOF⟩ ⟨[], IOErr.EOF⟩ (malformedLength 3 2)
      (by decide) (by decide) (by decide) (ReadsOk.nil _) (by rfl) (Or.inl rfl)⟩

/-! ## Streams that end inside a line -/

/-- C14: on a stream that holds no `\n`, the empty stream included,
`parseRequest` returns the read error of the stream itself, unchanged, and no
Request. -/
theorem parseRequest_no_newline (ul : List Nat → List Nat) (buf : List Nat) (e : IOErr)
    (h : ∀ b ∈ buf, b ≠ 10) :
    parseRequest ul ⟨⟨buf, e⟩⟩ = (.error (Error.io e), ⟨[], e⟩) := by
  unfold parseRequest
  simp only [ReadString, cutAfter_none 10 buf h]

/-- Witness of C14: `PING` without a terminator, and the empty stream. -/
theorem parseRequest_no_newline_witness :
    parseRequest id ⟨⟨ascii "PING", IOErr.EOF⟩⟩ = (.error (Error.io IOErr.EOF), ⟨[], IOErr.EOF⟩) ∧
      parseRequest id ⟨⟨[], IOErr.other 104⟩⟩ =
        (.error (Error.io (IOErr.other 104)), ⟨[], IOErr.other 104⟩) :=
  ⟨parseRequest_no_newline id (ascii "PING") IOErr.EOF (by decide),
   parseRequest_no_newline id [] (IOErr.other 104) (by decide)⟩

/-- C15, amended: when the stream ends before a `\n` while `readArgument` reads
the header line of an argument, the error returned is
`malformed("$<argumentLength>", got)`, `got` being the bytes read; the error of
the stream is not returned. -/
theorem readArgument_header_cut (buf : List Nat) (e : IOErr) (h : ∀ b ∈ buf, b ≠ 10) :
    readArgument ⟨buf, e⟩ = (.error (malformed "$<argumentLength>" buf), ⟨[], e⟩) ∧
      malformed "$<argumentLength>" buf ≠ Error.io e := by
  refine ⟨?_, ?_⟩
  · unfold readArgument
    simp only [ReadString, cutAfter_none 10 buf h]
  · intro h'
    cases h'

/-- Witness of C15: the stream ends after `$3`. -/
theorem readArgument_header_cut_witness :
    readArgument ⟨ascii "$3", IOErr.EOF⟩ =
        (.error (malformed "$<argumentLength>" (ascii "$3")), ⟨[], IOErr.EOF⟩) ∧
      malformed "$<argumentLength>" (ascii "$3") ≠ Error.io IOErr.EOF :=
  readArgument_header_cut (ascii "$3") IOErr.EOF (by decide)

/-- Counterexample to C15 as stated: on `*1\r\n` alone and on `*1\r\n$3` the
error `parseRequest` returns is built by `malformed`, not the end-of-stream
error. -/
theorem cut_header_is_reclassified :
    (parseRequest id ⟨⟨ascii "*1\r\n", IOErr.EOF⟩⟩).1 =
        .error (malformed "$<argumentLength>" []) ∧
      (parseRequest id ⟨⟨ascii "*1\r\n$3", IOErr.EOF⟩⟩).1 =
        .error (malformed "$<argumentLength>" (ascii "$3")) ∧
      (parseRequest id ⟨⟨ascii "*1\r\n", IOErr.EOF⟩⟩).1 ≠ .error (Error.io IOErr.EOF) ∧
      (parseRequest id ⟨⟨ascii "*1\r\n$3", IOErr.EOF⟩⟩).1 ≠ .error (Error.io IOErr.EOF) := by
  decide

/-! ## The header of an argument -/

/-- C16, amended: for every argument header line that, as `Sscanf` reads it, is
not `$`, optional white space, an optionally signed run of decimal digits and
then a white-space character other than a newline (or the end of what `Sscanf`
reads), `readArgument` fails with `malformed("$<argumentSize>", line)`. A
negative declared length is such a header: `$-1\r\n` passes the header parse
and is rejected by the length check, with `malformedLength(-1, 0)`. -/
theorem readArgument_malformed_header (l s : List Nat) (e : IOErr) (hl : ∀ b ∈ l, b ≠ 10)
    (hbad : ¬ LenientHeader 36 ((readRunes (l ++ [10])).take hugeWid)) :
    readArgument ⟨l ++ [10] ++ s, e⟩ =
        (.error (malformed "$<argumentSize>" (l ++ [10])), ⟨s, e⟩) ∧
      readArgument ⟨ascii "$-1\r" ++ [10] ++ s, e⟩ =
        (.error (malformedLength (-1) 0), ⟨s, e⟩) := by
  constructor
  · have hread := ReadString_line l s e hl
    unfold readArgument
    rw [List.append_assoc]
    simp only [List.singleton_append, hread]
    cases hsc : Sscanf 36 (l ++ [10]) with
    | none => rfl
    | some v => exact absurd (Sscanf_some 36 _ v hsc) hbad
  · have hread := ReadString_line (ascii "$-1\r") s e (by decide)
    have hscan : Sscanf 36 (ascii "$-1\r" ++ [10]) = some (-1) := by decide
    unfold readArgument
    rw [List.append_assoc]
    simp only [List.singleton_append, hread, hscan]
    rfl

/-- Witness of C16: the header `$x\r\n`. -/
theorem readArgument_malformed_header_witness :
    readArgument ⟨ascii "$x\r" ++ [10] ++ ascii "foo\r\n", IOErr.EOF⟩ =
        (.error (malformed "$<argumentSize>" (ascii "$x\r\n")), ⟨ascii "foo\r\n", IOErr.EOF⟩) ∧
      readArgument ⟨ascii "$-1\r" ++ [10] ++ ascii "foo\r\n", IOErr.EOF⟩ =
        (.error (malformedLength (-1) 0), ⟨ascii "foo\r\n", IOErr.EOF⟩) := by
  have hbad : ¬ LenientHeader 36 ((readRunes (ascii "$x\r" ++ [10])).take hugeWid) := by
    have hr : (readRunes (ascii "$x\r" ++ [10])).take hugeWid = [36, 120, 13, 10] := by decide
    rw [hr]
    rintro ⟨ws, sg, ds, tl, heq, hws, hsg, hds, hdig, -⟩
    simp only [List.cons.injEq, true_and] at heq
    cases ws with
    | cons w ws' =>
      simp only [List.cons_append, List.cons.injEq] at heq
      have := (hws w (List.mem_cons_self _ _)).1
      rw [← heq.1] at this
      exact absurd this (by decide)
    | nil =>
      rcases hsg with rfl | rfl | rfl
      · cases ds with
        | nil => exact hds rfl
        | cons d ds' =>
          simp only [List.nil_append, List.cons_append, List.cons.injEq] at heq
          have := hdig d (List.mem_cons_self _ _)
          omega
      · simp at heq
      · simp at heq
  exact readArgument_malformed_header (ascii "$x\r") (ascii "foo\r\n") IOErr.EOF (by decide) hbad

/-- Counterexample to C16 as stated: `$-1\r\n` is not rejected as a malformed
header but by the length check, and `$ 3\r\n`, which is not `$<N>\r`, is
accepted as the length 3. -/
theorem negative_length_is_length_mismatch :
    readArgument ⟨ascii "$-1\r\n", IOErr.EOF⟩ =
        (.error (malformedLength (-1) 0), ⟨[], IOErr.EOF⟩) ∧
      (∀ expected : String, ∀ got : List Nat,
        malformedLength (-1) 0 ≠ malformed expected got) ∧
      readArgument ⟨ascii "$ 3\r\nfoo\r\n", IOErr.EOF⟩ = (.ok (ascii "foo"), ⟨[], IOErr.EOF⟩) := by
  refine ⟨by rfl, ?_, by rfl⟩
  intro expected got h
  cases h

/-! ## What the inline path strips -/

/-- C17, amended: on the inline path every leading and every trailing `\r` of
the line is removed with the terminator before tokenizing: every inline line
`l ++ "\n"` is a run of `\r`, the tokens `toks` joined by single spaces, and a
run of `\r`, where the joined text neither begins nor ends with `\r` and no
token holds a space; Name is the lowercase of the first token and Args are the
other tokens. A `\r` at the start or at the end of the line is in no token. -/
theorem inline_path_strips_cr (ul : List Nat → List Nat) (l s : List Nat) (e : IOErr)
    (hl : ∀ b ∈ l, b ≠ 10) (hstar : (l ++ [10]).head? ≠ some 42) :
    ∃ (pre : List Nat) (toks : List (List Nat)) (suf : List Nat),
      l = pre ++ joinTokens toks ++ suf ∧ (∀ b ∈ pre, b = 13) ∧ (∀ b ∈ suf, b = 13) ∧
      (joinTokens toks).head? ≠ some 13 ∧ (joinTokens toks).getLast? ≠ some 13 ∧
      toks ≠ [] ∧ (∀ t ∈ toks, ∀ b ∈ t, b ≠ 32) ∧
      parseRequest ul ⟨⟨l ++ [10] ++ s, e⟩⟩ =
        (.ok ⟨ToLower ul (toks.headD []), toks.tail⟩, ⟨s, e⟩) := by
  obtain ⟨pre, text, suf, hdec, hpre, hsuf, hh, hlast⟩ := strip_cr_decomposition l
  have htext : ∀ b ∈ text, b ≠ 10 := by
    intro b hb
    apply hl b
    rw [hdec]
    simp [hb]
  have hh10 : text.head? ≠ some 10 := fun h => htext 10 (List.mem_of_mem_head? h) rfl
  have hl10 : text.getLast? ≠ some 10 :=
    fun h => htext 10 (List.mem_of_getLast?_eq_some h) rfl
  have htrim := Trim_line pre text suf hpre hsuf ⟨hh, hh10⟩ ⟨hlast, hl10⟩
  have hread := ReadString_line l s e hl
  refine ⟨pre, Split text, suf, ?_, hpre, hsuf, ?_, ?_, Split_ne_nil text, Split_no_space text, ?_⟩
  · rw [joinTokens_Split]; exact hdec
  · rw [joinTokens_Split]; exact hh
  · rw [joinTokens_Split]; exact hlast
  · unfold parseRequest
    rw [List.append_assoc]
    simp only [List.singleton_append, hread, hstar, if_false]
    rw [hdec, htrim]

/-- Witness of C17: the line `\rGET a\r\r\n`. -/
theorem inline_path_strips_cr_witness :
    ∃ (pre : List Nat) (toks : List (List Nat)) (suf : List Nat),
      ascii "\rGET a\r\r" = pre ++ joinTokens toks ++ suf ∧ (∀ b ∈ pre, b = 13) ∧
      (∀ b ∈ suf, b = 13) ∧
      (joinTokens toks).head? ≠ some 13 ∧ (joinTokens toks).getLast? ≠ some 13 ∧
      toks ≠ [] ∧ (∀ t ∈ toks, ∀ b ∈ t, b ≠ 32) ∧
      parseRequest id ⟨⟨ascii "\rGET a\r\r" ++ [10] ++ ascii "PING\r\n", IOErr.EOF⟩⟩ =
        (.ok ⟨ToLower id (toks.headD []), toks.tail⟩, ⟨ascii "PING\r\n", IOErr.EOF⟩) :=
  inline_path_strips_cr id (ascii "\rGET a\r\r") (ascii "PING\r\n") IOErr.EOF
    (by decide) (by decide)

/-- Counterexample to C17 as stated: the `\r` that begins `\rGET a\r\n` is not
part of the name, and the `\r` before the terminator of `GET a\r\r\n` is not
part of the argument. -/
theorem leading_and_trailing_cr_leave_tokens :
    parseRequest id ⟨⟨ascii "\rGET a\r\n", IOErr.EOF⟩⟩ =
        (.ok ⟨ascii "get", [ascii "a"]⟩, ⟨[], IOErr.EOF⟩) ∧
      ascii "get" ≠ ToLower id (ascii "\rGET") ∧
      parseRequest id ⟨⟨ascii "GET a\r\r\n", IOErr.EOF⟩⟩ =
        (.ok ⟨ascii "get", [ascii "a"]⟩, ⟨[], IOErr.EOF⟩) ∧
      ascii "a" ≠ ascii "a\r" := by
  decide

/-! ## When `parseRequest` aborts -/

/-- C18, amended: whatever memory `avail` the runtime can obtain for the
argument slice, `parseRequest` ends in `make([][]byte, argsCount-1)` exactly on
the inputs whose first line is a count header that is accepted, whose following
bytes form one well-formed argument, and whose count is not positive or asks
for more slice headers than `make` provides (more than `maxAlloc` bytes: panic;
more than `avail` bytes: fatal out of memory); on every other input it returns
a Request or an error; and a Request decoded from a frame holds exactly
`argsCount - 1` arguments, the length of the slice the loop indexes. -/
theorem aborts_in_make_exactly (avail : Nat) (ul : List Nat → List Nat) (c : Conn) :
    ((parseRequestWithin avail ul c).1 = Outcome.panic ↔ AbortsInMake avail c) ∧
      (¬ AbortsInMake avail c →
        (∃ req : Request, (parseRequestWithin avail ul c).1 = .ok req) ∨
          ∃ err : Error, (parseRequestWithin avail ul c).1 = .error err) ∧
      (∀ (line : List Nat) (r1 : Reader) (argsCount : Int) (req : Request),
        ReadString c.r 10 = (line, none, r1) → line.head? = some 42 →
        Sscanf 42 line = some argsCount → (parseRequestWithin avail ul c).1 = .ok req →
        (req.Args.length : Int) = argsCount - 1) := by
  refine ⟨parseRequestWithin_panic_iff_aux avail ul c, ?_, ?_⟩
  · intro hno
    cases hout : (parseRequestWithin avail ul c).1 with
    | ok req => exact Or.inl ⟨req, rfl⟩
    | error err => exact Or.inr ⟨err, rfl⟩
    | panic => exact absurd ((parseRequestWithin_panic_iff_aux avail ul c).mp hout) hno
  · intro line r1 argsCount req hrs hh hsc hok
    exact parseRequestWithin_args_length_aux avail ul c line r1 argsCount req hrs hh hsc hok

/-- Witness of C18, with 2^40 bytes to obtain: the count 0 ends the run, so
does the count 11728124029611, whose slice headers pass the check of `make`
against `maxAlloc` and exceed the memory; `PING\r\n` returns; and the Request
decoded from the frame of `SET foo bar` holds two arguments. -/
theorem aborts_in_make_exactly_witness :
    (parseRequestWithin (2 ^ 40) id ⟨⟨ascii "*0\r\n$4\r\nPING\r\n", IOErr.EOF⟩⟩).1 =
        Outcome.panic ∧
      (parseRequestWithin (2 ^ 40) id
        ⟨⟨ascii "*11728124029611\r\n$4\r\nPING\r\n", IOErr.EOF⟩⟩).1 = Outcome.panic ∧
      ((∃ req : Request,
          (parseRequestWithin (2 ^ 40) id ⟨⟨ascii "PING\r\n", IOErr.EOF⟩⟩).1 = .ok req) ∨
        ∃ err : Error,
          (parseRequestWithin (2 ^ 40) id ⟨⟨ascii "PING\r\n", IOErr.EOF⟩⟩).1 = .error err) ∧
      (∃ req : Request,
        (parseRequestWithin (2 ^ 40) id
          ⟨⟨ascii "*3\r\n$3\r\nSET\r\n$3\r\nfoo\r\n$3\r\nbar\r\n", IOErr.EOF⟩⟩).1 = .ok req ∧
        (req.Args.length : Int) = 3 - 1) :=
  ⟨(aborts_in_make_exactly (2 ^ 40) id ⟨⟨ascii "*0\r\n$4\r\nPING\r\n", IOErr.EOF⟩⟩).1.mpr
      ⟨ascii "*0\r\n", ⟨ascii "$4\r\nPING\r\n", IOErr.EOF⟩, 0, ascii "PING", ⟨[], IOErr.EOF⟩,
        by decide, by decide, by decide, by rfl, Or.inl (by decide)⟩,
   (aborts_in_make_exactly (2 ^ 40) id
      ⟨⟨ascii "*11728124029611\r\n$4\r\nPING\r\n", IOErr.EOF⟩⟩).1.mpr
      ⟨ascii "*11728124029611\r\n", ⟨ascii "$4\r\nPING\r\n", IOErr.EOF⟩, 11728124029611,
        ascii "PING", ⟨[], IOErr.EOF⟩,
        by decide, by decide, by decide, by rfl, Or.inr (Or.inr (by decide))⟩,
   (aborts_in_make_exactly (2 ^ 40) id ⟨⟨ascii "PING\r\n", IOErr.EOF⟩⟩).2.1
      (fun h => absurd
        ((aborts_in_make_exactly (2 ^ 40) id ⟨⟨ascii "PING\r\n", IOErr.EOF⟩⟩).1.mpr h)
        (by decide)),
   ⟨⟨ascii "set", [ascii "foo", ascii "bar"]⟩, by decide,
    (aborts_in_make_exactly (2 ^ 40) id
      ⟨⟨ascii "*3\r\n$3\r\nSET\r\n$3\r\nfoo\r\n$3\r\nbar\r\n", IOErr.EOF⟩⟩).2.2
      (ascii "*3\r\n") ⟨ascii "$3\r\nSET\r\n$3\r\nfoo\r\n$3\r\nbar\r\n", IOErr.EOF⟩ 3
      ⟨ascii "set", [ascii "foo", ascii "bar"]⟩ (by decide) (by decide) (by decide)
      (by decide)⟩⟩

/-- Counterexample to C18 as stated: the header `*9223372036854775807\r\n`
declares a count that is at least 1, its first argument is well formed, and
`parseRequest` aborts in `make`, the length 9223372036854775806 being
rejected. -/
theorem huge_count_aborts :
    Sscanf 42 (ascii "*9223372036854775807\r\n") = some 9223372036854775807 ∧
      readArgument ⟨ascii "$4\r\nPING\r\n", IOErr.EOF⟩ = (.ok (ascii "PING"), ⟨[], IOErr.EOF⟩) ∧
      (parseRequest id ⟨⟨ascii "*9223372036854775807\r\n$4\r\nPING\r\n", IOErr.EOF⟩⟩).1 =
        Outcome.panic := by
  refine ⟨by decide, by rfl, by decide⟩

/-! ## The inline path never fails -/

/-- C19: for every input whose first line does not begin with `*`, whatever
the line holds, `parseRequest` returns a Request, and the bytes after the line
stay unread. -/
theorem inline_path_never_fails (ul : List Nat → List Nat) (l s : List Nat) (e : IOErr)
    (hl : ∀ b ∈ l, b ≠ 10) (hstar : (l ++ [10]).head? ≠ some 42) :
    ∃ req : Request, parseRequest ul ⟨⟨l ++ [10] ++ s, e⟩⟩ = (.ok req, ⟨s, e⟩) := by
  have hread := ReadString_line l s e hl
  refine ⟨⟨ToLower ul ((Split (Trim (l ++ [10]))).headD []), (Split (Trim (l ++ [10]))).tail⟩, ?_⟩
  unfold parseRequest
  rw [List.append_assoc]
  simp only [List.singleton_append, hread, hstar, if_false]

/-- Witness of C19: a line that begins with `$`, an empty line, and a line of
control and high bytes. -/
theorem inline_path_never_fails_witness :
    (∃ req : Request, parseRequest id ⟨⟨ascii "$3\r" ++ [10] ++ ascii "foo\r\n", IOErr.EOF⟩⟩ =
        (.ok req, ⟨ascii "foo\r\n", IOErr.EOF⟩)) ∧
      (∃ req : Request, parseRequest id ⟨⟨[] ++ [10] ++ [], IOErr.EOF⟩⟩ =
        (.ok req, ⟨[], IOErr.EOF⟩)) ∧
      (∃ req : Request, parseRequest id ⟨⟨[0, 255, 192, 32, 7] ++ [10] ++ [], IOErr.EOF⟩⟩ =
        (.ok req, ⟨[], IOErr.EOF⟩)) :=
  ⟨inline_path_never_fails id (ascii "$3\r") (ascii "foo\r\n") IOErr.EOF (by decide) (by decide),
   inline_path_never_fails id [] [] IOErr.EOF (by decide) (by decide),
   inline_path_never_fails id [0, 255, 192, 32, 7] [] IOErr.EOF (by decide) (by decide)⟩

end Redis
